import Mathlib

/-!
# HRMS Lite front end: the attendance reconciliation of `src/pages/Attendance.jsx`

A shallow embedding of the data transformations that the Attendance view performs
inside its request handlers, and of the handlers themselves:

* the employee/attendance merge of `fetchEmployees` (lines 45-54) and of
  `handleDateChange` (lines 151-159),
* the grouping and the employee join of `fetchAttendanceRecords` (lines 78-107),
* the local roster update of `handleAttendanceChange` (lines 129-132),
* the four request handlers of the view, run against the outcomes of their requests,
* `handleSubmit` and `fetchEmployees` of `src/pages/Employees.jsx`.

The handlers keep their lookup tables in object literals (`{}`), so a table is an
ordinary JavaScript object: a property read that finds no own property continues
in `Object.prototype`, an assignment to the key `__proto__` runs the inherited
setter, and `Object.values` lists array-index keys first.  The embedding keeps
these three rules, since they decide what the handlers compute on some strings.
-/

namespace Hrms

/-! ## Data model -/

/-- An employee object as returned by `GET /employees`. -/
structure Employee where
  employeeId : String
  fullName : String
  email : String
  department : String
  deriving DecidableEq, Repr

/-- An attendance record as returned by `GET /attendance`. -/
structure AttendanceRecord where
  employeeId : String
  date : String
  status : String
  deriving DecidableEq, Repr

/-- The values that a read of `attendanceMap[key]` or of `emp.status` can yield:
a string, `undefined`, or the member `name` of `Object.prototype` found through the
prototype chain (a built-in function, or `Object.prototype` itself for `__proto__`). -/
inductive JSVal where
  | str (s : String)
  | undefined
  | inherited (name : String)
  deriving DecidableEq, Repr

/-- An entry of the `employees` state of the Attendance view: the employee's fields
and the `status` property (`undefined` while the property is absent). -/
structure RosterEntry where
  employeeId : String
  fullName : String
  email : String
  department : String
  status : JSVal
  deriving DecidableEq, Repr

/-! ## Plain objects used as lookup tables -/

/-- The own property names of `Object.prototype` (ECMAScript, Annex B included);
every object literal inherits them. -/
def objectPrototypeKeys : List String :=
  ["constructor", "__defineGetter__", "__defineSetter__", "hasOwnProperty",
   "__lookupGetter__", "__lookupSetter__", "isPrototypeOf", "propertyIsEnumerable",
   "toString", "valueOf", "__proto__", "toLocaleString"]

/-- Own properties of an object, in creation order. -/
abbrev Props (α : Type) := List (String × α)

/-- Own-property lookup. -/
def Props.get? {α : Type} : Props α → String → Option α
  | [], _ => none
  | (k', v) :: rest, k => if k' = k then some v else Props.get? rest k

/-- Define or overwrite an own property; a new property goes last. -/
def Props.put {α : Type} : Props α → String → α → Props α
  | [], k, v => [(k, v)]
  | (k', v') :: rest, k, v =>
    if k' = k then (k, v) :: rest else (k', v') :: Props.put rest k v

/-- JavaScript truthiness of a value: the empty string and `undefined` are falsy,
function and object values are truthy. -/
def JSVal.truthy : JSVal → Bool
  | .str s => decide (s ≠ "")
  | .undefined => false
  | .inherited _ => true

/-- The expression `a || b`. -/
def JSVal.or (a b : JSVal) : JSVal := if a.truthy then a else b

/-! ## The daily merge (`fetchEmployees`, `handleDateChange`) -/

/-- The statement `attendanceMap[record.employeeId] = record.status` with a string on the
right: for the key `__proto__` the assignment reaches the setter inherited from
`Object.prototype`, which ignores a value that is not an object; every other key gets an
own property. -/
def attendanceMapAssign (attendanceMap : Props String) (record : AttendanceRecord) :
    Props String :=
  if record.employeeId = "__proto__" then attendanceMap
  else attendanceMap.put record.employeeId record.status

/-- Lines 46-49 and 151-154: `attendanceMap = {}` filled by `forEach` over the records. -/
def buildAttendanceMap (records : List AttendanceRecord) : Props String :=
  records.foldl attendanceMapAssign []

/-- The read `attendanceMap[key]`: the own property when there is one, else the member
inherited from `Object.prototype`, else `undefined`. -/
def attendanceMapRead (attendanceMap : Props String) (key : String) : JSVal :=
  match attendanceMap.get? key with
  | some status => .str status
  | none => if key ∈ objectPrototypeKeys then .inherited key else .undefined

/-- The expression `attendanceMap[emp.employeeId] || 'Not Marked'`. -/
def resolveStatus (attendanceMap : Props String) (employeeId : String) : JSVal :=
  (attendanceMapRead attendanceMap employeeId).or (.str "Not Marked")

/-- Lines 45-54 of `fetchEmployees`: `response.data.map(emp => ({...emp, status: ...}))`
over the employees of `GET /employees` and the records of `GET /attendance?date_filter=`. -/
def employeesWithAttendance (employees : List Employee) (records : List AttendanceRecord) :
    List RosterEntry :=
  let attendanceMap := buildAttendanceMap records
  employees.map fun emp =>
    { employeeId := emp.employeeId, fullName := emp.fullName, email := emp.email,
      department := emp.department, status := resolveStatus attendanceMap emp.employeeId }

/-- Lines 151-159 of `handleDateChange`: the same merge over the current `employees`
state, whose entries already carry a `status` that the spread overwrites. -/
def handleDateChangeMerge (employees : List RosterEntry) (records : List AttendanceRecord) :
    List RosterEntry :=
  let attendanceMap := buildAttendanceMap records
  employees.map fun emp => { emp with status := resolveStatus attendanceMap emp.employeeId }

/-- Lines 130-132 of `handleAttendanceChange`:
`employees.map(emp => emp.employeeId === employeeId ? { ...emp, status } : emp)`. -/
def applyStatusUpdate (employees : List RosterEntry) (employeeId : String) (status : String) :
    List RosterEntry :=
  employees.map fun emp =>
    if emp.employeeId = employeeId then { emp with status := .str status } else emp

/-! ## The range summary (`fetchAttendanceRecords`) -/

/-- A value of `employeeMap`: the object created at lines 82-87.  The counters are
JavaScript numbers that only ever count records, so they are natural numbers. -/
structure Group where
  employeeId : String
  records : List AttendanceRecord
  presentDays : Nat
  absentDays : Nat
  deriving DecidableEq, Repr

/-- Lines 89-94: push the record on the group and increment one of the two counters. -/
def Group.add (group : Group) (record : AttendanceRecord) : Group :=
  { employeeId := group.employeeId
    records := group.records ++ [record]
    presentDays := if record.status = "Present" then group.presentDays + 1 else group.presentDays
    absentDays := if record.status = "Present" then group.absentDays else group.absentDays + 1 }

/-- The callback of `response.data.forEach` (lines 80-95) on one record; `none` is the
`TypeError` thrown by `employeeMap[record.employeeId].records.push(record)`.

When `employeeMap` has no own property for the key but `Object.prototype` has a member of
that name, `!employeeMap[record.employeeId]` is false (the member is a function or an
object), no group is created, and `.records` of the member is `undefined`. -/
def groupStep (employeeMap : Props Group) (record : AttendanceRecord) : Option (Props Group) :=
  match employeeMap.get? record.employeeId with
  | some group => some (employeeMap.put record.employeeId (group.add record))
  | none =>
    if record.employeeId ∈ objectPrototypeKeys then none
    else
      some (employeeMap.put record.employeeId
        (Group.add { employeeId := record.employeeId, records := [],
                     presentDays := 0, absentDays := 0 } record))

/-- The `forEach` loop of lines 80-95 continued from a given `employeeMap`. -/
def groupRecords : Props Group → List AttendanceRecord → Option (Props Group)
  | employeeMap, [] => some employeeMap
  | employeeMap, record :: rest =>
    match groupStep employeeMap record with
    | some employeeMap' => groupRecords employeeMap' rest
    | none => none

/-- Numeric value of a string of decimal digits, continuing from `acc`. -/
def decimalValue : List Char → Nat → Option Nat
  | [], acc => some acc
  | c :: cs, acc =>
    if '0' ≤ c ∧ c ≤ '9' then decimalValue cs (10 * acc + (c.toNat - '0'.toNat)) else none

/-- The array index that a property key denotes, if any: the key is the canonical decimal
form (no sign, no leading zero) of an integer below `2^32 - 1`. -/
def arrayIndex? (key : String) : Option Nat :=
  match key.data with
  | [] => none
  | c :: cs =>
    if c = '0' ∧ cs ≠ [] then none
    else
      match decimalValue (c :: cs) 0 with
      | some n => if n < 2 ^ 32 - 1 then some n else none
      | none => none

/-- The expression `Object.values(obj)`: own property values with the array-index keys first, in
ascending numeric order, followed by the other keys in creation order. -/
def objectValues {α : Type} (obj : Props α) : List α :=
  let indexed := obj.filterMap fun kv => (arrayIndex? kv.1).map fun n => (n, kv.2)
  let named := obj.filter fun kv => (arrayIndex? kv.1).isNone
  (indexed.insertionSort fun a b => a.1 ≤ b.1).map (·.2) ++ named.map (·.2)

/-- The object `employeeDetailsMap` of lines 99-102: its own properties and, once an employee
object has been assigned to the key `__proto__`, that object as its prototype (`none` while the
prototype is still `Object.prototype`). -/
structure DetailsMap where
  own : Props Employee
  proto : Option Employee
  deriving DecidableEq, Repr

/-- The statement `employeeDetailsMap[emp.employeeId] = emp`: the right-hand side is an
object, so for the key `__proto__` the inherited setter replaces the prototype. -/
def detailsAssign (employeeDetailsMap : DetailsMap) (emp : Employee) : DetailsMap :=
  if emp.employeeId = "__proto__" then { employeeDetailsMap with proto := some emp }
  else { employeeDetailsMap with own := employeeDetailsMap.own.put emp.employeeId emp }

/-- Lines 99-102: `employeeDetailsMap = {}` filled by `forEach` over the employees. -/
def buildEmployeeDetailsMap (employees : List Employee) : DetailsMap :=
  employees.foldl detailsAssign { own := [], proto := none }

/-- The values that the read `employeeDetailsMap[key]` can yield. -/
inductive Detail where
  | employee (emp : Employee)
  | str (s : String)
  | inherited (name : String)
  | undefined
  deriving DecidableEq, Repr

/-- Own property `key` of an employee object. -/
def Employee.prop? (emp : Employee) (key : String) : Option String :=
  if key = "employeeId" then some emp.employeeId
  else if key = "fullName" then some emp.fullName
  else if key = "email" then some emp.email
  else if key = "department" then some emp.department
  else none

/-- The read `employeeDetailsMap[key]`: the own property, else what the prototype chain
holds (the installed employee object, then `Object.prototype`), else `undefined`. -/
def detailsRead (employeeDetailsMap : DetailsMap) (key : String) : Detail :=
  match employeeDetailsMap.own.get? key with
  | some emp => .employee emp
  | none =>
    match employeeDetailsMap.proto with
    | some p =>
      match p.prop? key with
      | some s => .str s
      | none =>
        if key = "__proto__" then .employee p
        else if key ∈ objectPrototypeKeys then .inherited key else .undefined
    | none => if key ∈ objectPrototypeKeys then .inherited key else .undefined

/-- An element of `recordsWithDetails` (lines 104-107): the group's properties and `employee`. -/
structure Summary where
  employeeId : String
  records : List AttendanceRecord
  presentDays : Nat
  absentDays : Nat
  employee : Detail
  deriving DecidableEq, Repr

/-- Lines 78-107 of `fetchAttendanceRecords` on the records of `GET /attendance` and the
employees of `GET /employees`: the value passed to `setAttendanceRecords`, or `none` when the
grouping throws (the `catch` block then leaves `attendanceRecords` as it was). -/
def recordsWithDetails (records : List AttendanceRecord) (employees : List Employee) :
    Option (List Summary) :=
  match groupRecords [] records with
  | none => none
  | some employeeMap =>
    let employeeDetailsMap := buildEmployeeDetailsMap employees
    some ((objectValues employeeMap).map fun record =>
      { employeeId := record.employeeId, records := record.records,
        presentDays := record.presentDays, absentDays := record.absentDays,
        employee := detailsRead employeeDetailsMap record.employeeId })

/-! ## The request handlers

A handler is run to its end against the outcomes of the requests it awaits.  Its result is the
component state after the last `set...` call, with the requests it sent and the toasts it
raised.  Dates are carried in their `yyyy-MM-dd` form, which is all the handlers use of them. -/

/-- How an awaited axios request settles: fulfilled with `response.data`, or rejected (with
`error.response?.data?.detail` when the server sent one). -/
inductive Response (α : Type) where
  | fulfilled (data : α)
  | rejected (detail : Option String)
  deriving DecidableEq, Repr

/-- A call of `toast.error` or `toast.success`. -/
inductive Toast where
  | error (message : String)
  | success (message : String)
  deriving DecidableEq, Repr

/-- The requests the two pages send. -/
inductive Request where
  | getEmployees
  | getAttendanceByDate (dateFilter : String)
  | getAttendance (range : Option (String × String))
  | postAttendance (employeeId date status : String)
  | postEmployee (fullName email department : String)
  deriving DecidableEq, Repr

/-- What a handler leaves behind: the state, the requests sent and the toasts raised, both in
order. -/
structure Outcome (σ : Type) where
  state : σ
  requests : List Request
  toasts : List Toast
  deriving DecidableEq, Repr

/-- The `useState` cells of the `Attendance` component (lines 17-23) that its handlers read or
write. -/
structure AttendanceView where
  employees : List RosterEntry
  attendanceRecords : List Summary
  selectedDate : String
  dateRange : Option String × Option String
  loading : Bool
  saving : Bool
  deriving DecidableEq, Repr

/-- An employee object of `response.data` held in the `employees` state as it is: it has no
`status` property, so a read of `emp.status` gives `undefined`. -/
def rawEntry (emp : Employee) : RosterEntry :=
  { employeeId := emp.employeeId, fullName := emp.fullName, email := emp.email,
    department := emp.department, status := .undefined }

/-- Lines 35-63, `fetchEmployees` of the Attendance view.  `setEmployees(response.data)` runs as
soon as `GET /employees` is fulfilled, before `GET /attendance?date_filter=` is awaited. -/
def AttendancePage.fetchEmployees (view : AttendanceView) (response : Response (List Employee))
    (attendanceRes : Response (List AttendanceRecord)) : Outcome AttendanceView :=
  match response with
  | .rejected _ =>
    { state := { view with loading := false }
      requests := [.getEmployees]
      toasts := [.error "Failed to load employees"] }
  | .fulfilled data =>
    match attendanceRes with
    | .rejected _ =>
      { state := { view with employees := data.map rawEntry, loading := false }
        requests := [.getEmployees, .getAttendanceByDate view.selectedDate]
        toasts := [.error "Failed to load employees"] }
    | .fulfilled records =>
      { state := { view with employees := employeesWithAttendance data records, loading := false }
        requests := [.getEmployees, .getAttendanceByDate view.selectedDate]
        toasts := [] }

/-- The URL choice of lines 68-74: the range is sent when both ends are set. -/
def attendanceQuery (dateRange : Option String × Option String) : Option (String × String) :=
  match dateRange with
  | (some startDate, some endDate) => some (startDate, endDate)
  | _ => none

/-- Lines 65-116, `fetchAttendanceRecords`.  The grouping runs between the two requests; when it
throws, the `catch` block is entered before `GET /employees` is sent. -/
def AttendancePage.fetchAttendanceRecords (view : AttendanceView)
    (response : Response (List AttendanceRecord)) (employeesRes : Response (List Employee)) :
    Outcome AttendanceView :=
  let failed (requests : List Request) : Outcome AttendanceView :=
    { state := { view with loading := false }
      requests := requests
      toasts := [.error "Failed to load attendance records"] }
  match response with
  | .rejected _ => failed [.getAttendance (attendanceQuery view.dateRange)]
  | .fulfilled records =>
    match groupRecords [] records with
    | none => failed [.getAttendance (attendanceQuery view.dateRange)]
    | some _ =>
      match employeesRes with
      | .rejected _ => failed [.getAttendance (attendanceQuery view.dateRange), .getEmployees]
      | .fulfilled employees =>
        match recordsWithDetails records employees with
        | none => failed [.getAttendance (attendanceQuery view.dateRange), .getEmployees]
        | some summaries =>
          { state := { view with attendanceRecords := summaries, loading := false }
            requests := [.getAttendance (attendanceQuery view.dateRange), .getEmployees]
            toasts := [] }

/-- Lines 118-141, `handleAttendanceChange`. -/
def AttendancePage.handleAttendanceChange (view : AttendanceView) (employeeId status : String)
    (response : Response Unit) : Outcome AttendanceView :=
  match response with
  | .rejected _ =>
    { state := { view with saving := false }
      requests := [.postAttendance employeeId view.selectedDate status]
      toasts := [.error "Failed to mark attendance"] }
  | .fulfilled _ =>
    { state := { view with employees := applyStatusUpdate view.employees employeeId status,
                           saving := false }
      requests := [.postAttendance employeeId view.selectedDate status]
      toasts := [.success "Attendance marked successfully"] }

/-- Lines 143-165, `handleDateChange`.  `setSelectedDate(date)` runs before the `try` block, and
the `catch` block only writes to the console. -/
def AttendancePage.handleDateChange (view : AttendanceView) (date : String)
    (attendanceRes : Response (List AttendanceRecord)) : Outcome AttendanceView :=
  match attendanceRes with
  | .rejected _ =>
    { state := { view with selectedDate := date, loading := false }
      requests := [.getAttendanceByDate date]
      toasts := [] }
  | .fulfilled records =>
    { state := { view with selectedDate := date,
                           employees := handleDateChangeMerge view.employees records,
                           loading := false }
      requests := [.getAttendanceByDate date]
      toasts := [] }

/-! ## The Employees page (`src/pages/Employees.jsx`) -/

/-- The `formData` state of the add-employee dialog (lines 30-34). -/
structure FormData where
  fullName : String
  email : String
  department : String
  deriving DecidableEq, Repr

/-- The `useState` cells of the `Employees` component that `handleSubmit` and `fetchEmployees`
read or write (`deleteDialog` is touched by neither). -/
structure EmployeesView where
  employees : List Employee
  loading : Bool
  dialogOpen : Bool
  formData : FormData
  formLoading : Bool
  deriving DecidableEq, Repr

/-- Lines 41-52 of `Employees.jsx`, `fetchEmployees`. -/
def EmployeesPage.fetchEmployees (view : EmployeesView) (response : Response (List Employee)) :
    Outcome EmployeesView :=
  match response with
  | .rejected _ =>
    { state := { view with loading := false }
      requests := [.getEmployees]
      toasts := [.error "Failed to load employees"] }
  | .fulfilled data =>
    { state := { view with employees := data, loading := false }
      requests := [.getEmployees]
      toasts := [] }

/-- The expression `error.response?.data?.detail || 'Failed to add employee'`. -/
def submitErrorMessage (detail : Option String) : String :=
  match detail with
  | some message => if message ≠ "" then message else "Failed to add employee"
  | none => "Failed to add employee"

/-- Lines 54-76 of `Employees.jsx`, `handleSubmit`, with the `fetchEmployees()` call it starts
run to its end.  The guard `!formData.fullName || !formData.email || !formData.department`
holds exactly when one of the three strings is empty. -/
def EmployeesPage.handleSubmit (view : EmployeesView) (response : Response Unit)
    (employeesRes : Response (List Employee)) : Outcome EmployeesView :=
  if view.formData.fullName = "" ∨ view.formData.email = "" ∨ view.formData.department = "" then
    { state := view, requests := [], toasts := [.error "Please fill in all fields"] }
  else
    let post := Request.postEmployee view.formData.fullName view.formData.email
      view.formData.department
    match response with
    | .rejected detail =>
      { state := { view with formLoading := false }
        requests := [post]
        toasts := [.error (submitErrorMessage detail)] }
    | .fulfilled _ =>
      let reloaded := EmployeesPage.fetchEmployees
        { view with dialogOpen := false,
                    formData := { fullName := "", email := "", department := "" },
                    formLoading := false } employeesRes
      { state := reloaded.state
        requests := post :: reloaded.requests
        toasts := .success "Employee added successfully" :: reloaded.toasts }

/-! ## The record cards of the View Records tab (lines 340-382)

Rendering a card can throw, and an error thrown while the list is rendered leaves nothing of
the list on the page.  Two expressions of a card throw on some summaries:

* line 371, `format(new Date(att.date), 'MMM dd, yyyy')`: date-fns throws
  `RangeError: Invalid time value` when `new Date(att.date)` is an invalid date;
* line 350, `record.employee?.fullName.split(' ')`: when `record.employee` is neither an
  employee object nor `undefined`, `.fullName` is `undefined` and `.split` throws a `TypeError`.

Which strings `new Date` accepts beyond the ISO forms is left to the JavaScript engine, so the
rendering takes the validity of a date string as a parameter `validDate`. -/

/-- The three badges that `getStatusBadge` can return. -/
inductive Badge where
  | present
  | absent
  | notMarked
  deriving DecidableEq, Repr

/-- Lines 167-188, `getStatusBadge`, on the status string of a record. -/
def getStatusBadge (status : String) : Badge :=
  if status = "Present" then .present
  else if status = "Absent" then .absent
  else .notMarked

/-- One cell of the grid of lines 365-375: the record's `date` (which the cell prints through
`format(new Date(att.date), 'MMM dd, yyyy')`) and its status badge. -/
structure RecordCell where
  date : String
  badge : Badge
  deriving DecidableEq, Repr

/-- What a card lists under its header: the cells of the grid, and the number printed in the
line `+k more records` when that line is rendered. -/
structure RecordCard where
  cells : List RecordCell
  more : Option Nat
  deriving DecidableEq, Repr

/-- The cell of one record (lines 367-373). -/
def recordCell (att : AttendanceRecord) : RecordCell :=
  { date := att.date, badge := getStatusBadge att.status }

/-- The callback of `.map` at lines 366-374 over the records handed to it, in order; `none` is
the `RangeError` that `format` throws at line 371 on the first record whose date is invalid. -/
def renderCells (validDate : String → Bool) : List AttendanceRecord → Option (List RecordCell)
  | [] => some []
  | att :: rest =>
    if validDate att.date then
      match renderCells validDate rest with
      | some cells => some (recordCell att :: cells)
      | none => none
    else none

/-- Whether the header of a card (lines 346-357) renders: `record.employee?.fullName.split(' ')`
returns for an employee object, is skipped for `undefined`, and throws for any other value. -/
def headerRenders (employee : Detail) : Bool :=
  match employee with
  | .employee _ => true
  | .undefined => true
  | .str _ => false
  | .inherited _ => false

/-- Lines 341-381, one card: the header, then `record.records.slice(0, 6).map(...)`, then
`record.records.length > 6 && <p>+{record.records.length - 6} more records</p>`; `none` when
rendering the card throws. -/
def recordCard (validDate : String → Bool) (record : Summary) : Option RecordCard :=
  if headerRenders record.employee then
    match renderCells validDate (record.records.take 6) with
    | some cells =>
      some { cells := cells
             more := if record.records.length > 6 then some (record.records.length - 6)
                     else none }
    | none => none
  else none

/-- Lines 340-382, `attendanceRecords.map(...)`: the cards of the list, or `none` when the
rendering of one of them throws. -/
def recordCards (validDate : String → Bool) : List Summary → Option (List RecordCard)
  | [] => some []
  | record :: rest =>
    match recordCard validDate record with
    | some card =>
      match recordCards validDate rest with
      | some cards => some (card :: cards)
      | none => none
    | none => none

/-- Days of a month of the proleptic Gregorian calendar. -/
def daysInMonth (year month : Nat) : Nat :=
  if month = 2 then
    if year % 4 = 0 ∧ (year % 100 ≠ 0 ∨ year % 400 = 0) then 29 else 28
  else if month = 4 ∨ month = 6 ∨ month = 9 ∨ month = 11 then 30
  else 31

/-- A calendar date written `YYYY-MM-DD`, the form in which the API sends dates.  On such a
string `new Date` gives a valid date in every engine, and on a string without any digit it
gives an invalid date in every engine; in between the engines differ.  The function is only
used to run the rendering on dates of these two kinds. -/
def isoCalendarDate (date : String) : Bool :=
  match date.data with
  | [y1, y2, y3, y4, s1, m1, m2, s2, d1, d2] =>
    match decimalValue [y1, y2, y3, y4] 0, decimalValue [m1, m2] 0, decimalValue [d1, d2] 0 with
    | some year, some month, some day =>
      decide (s1 = '-' ∧ s2 = '-' ∧ 1 ≤ month ∧ month ≤ 12 ∧ 1 ≤ day
        ∧ day ≤ daysInMonth year month)
    | _, _, _ => false
  | _ => false

/-! ## Reference definitions

What the spec says the tables hold, stated on the record list itself; the theorems below
compare the handlers with them. -/

/-- The status that the records hold for a key: the one of the last record with that
`employeeId`. -/
def lastStatus? (records : List AttendanceRecord) (key : String) : Option String :=
  ((records.filter fun r => r.employeeId = key).getLast?).map (·.status)

/-- The employee fields of a roster entry: the entry without its `status`. -/
def RosterEntry.toEmployee (entry : RosterEntry) : Employee :=
  { employeeId := entry.employeeId, fullName := entry.fullName, email := entry.email,
    department := entry.department }

/-- The group that the spec describes for a key: the records with that `employeeId` in list
order, the number of them whose status is `Present`, and the number of the others. -/
def groupOf (key : String) (records : List AttendanceRecord) : Group :=
  { employeeId := key
    records := records.filter fun r => r.employeeId = key
    presentDays :=
      (records.filter fun r => r.employeeId = key).countP fun r => r.status = "Present"
    absentDays :=
      (records.filter fun r => r.employeeId = key).countP fun r => r.status ≠ "Present" }

/-- The state of `employeeMap` once the records `seen` have gone through the loop: one own
property per `employeeId` seen, none named like a member of `Object.prototype`, each holding
the group of its key. -/
def GroupsOf (seen : List AttendanceRecord) (employeeMap : Props Group) : Prop :=
  (employeeMap.map Prod.fst).Nodup
    ∧ (∀ k g, employeeMap.get? k = some g →
        g = groupOf k seen ∧ (∃ r ∈ seen, r.employeeId = k) ∧ k ∉ objectPrototypeKeys)
    ∧ (∀ k, employeeMap.get? k = none → ∀ r ∈ seen, r.employeeId ≠ k)

/-- The summary that the spec describes for a key: its group, joined with the read of
`employeeDetailsMap` at the key. -/
def summaryOf (key : String) (records : List AttendanceRecord) (employees : List Employee) :
    Summary :=
  { employeeId := key
    records := (groupOf key records).records
    presentDays := (groupOf key records).presentDays
    absentDays := (groupOf key records).absentDays
    employee := detailsRead (buildEmployeeDetailsMap employees) key }

/-- The data state of the Attendance view: the roster, the summaries and the selected date. -/
def AttendanceView.data (view : AttendanceView) :
    List RosterEntry × List Summary × String :=
  (view.employees, view.attendanceRecords, view.selectedDate)

/-- The distinct elements of a list, in the order of their first occurrence. -/
def firstOccurrences : List String → List String
  | [] => []
  | k :: ks => k :: (firstOccurrences ks).filter fun x => x ≠ k

/-- The keys of an object after one more key has been given a property: a key that is new
goes last. -/
def noteKey (keys : List String) (k : String) : List String :=
  if k ∈ keys then keys else keys ++ [k]

/-- The order in which `Object.values` visits own properties created in the order `keys`:
the array indices in ascending numeric order, then the other keys in creation order. -/
def ownKeyOrder (keys : List String) : List String :=
  (keys.filter fun k => (arrayIndex? k).isSome).insertionSort
      (fun a b => (arrayIndex? a).getD 0 ≤ (arrayIndex? b).getD 0)
    ++ keys.filter fun k => (arrayIndex? k).isNone

/-- A canonical non-negative integer string: decimal digits only, no sign, and no leading zero
unless the string is `0`. -/
def canonicalNat (key : String) : Bool :=
  match key.data with
  | [] => false
  | c :: cs =>
    (decide (c ≠ '0') || cs.isEmpty) && (c :: cs).all fun d => decide ('0' ≤ d ∧ d ≤ '9')

/-- A record with its date blanked. -/
def AttendanceRecord.withoutDate (record : AttendanceRecord) : AttendanceRecord :=
  { record with date := "" }

/-- A summary with the dates of its records blanked. -/
def Summary.withoutDates (summary : Summary) : Summary :=
  { summary with records := summary.records.map AttendanceRecord.withoutDate }

/-- What a card is to show for its summary of `n` records: the first `min n 6` records in
group order, the line `+k more records` exactly when `n > 6`, with `k = n - 6`, and as many
records shown as, with `k` (0 without the line), make `n`. -/
def CardShows (record : Summary) (card : RecordCard) : Prop :=
  card.cells = (record.records.take (min record.records.length 6)).map recordCell
    ∧ card.cells.length = min record.records.length 6
    ∧ (record.records.length > 6 → card.more = some (record.records.length - 6))
    ∧ (record.records.length ≤ 6 → card.more = none)
    ∧ card.cells.length + card.more.getD 0 = record.records.length

/-! ## Own-property tables -/

theorem Props.get?_put_self {α : Type} (m : Props α) (k : String) (v : α) :
    (m.put k v).get? k = some v := by
  induction m with
  | nil => simp [Props.put, Props.get?]
  | cons kv rest ih =>
    obtain ⟨k', v'⟩ := kv
    by_cases h : k' = k
    · simp [Props.put, Props.get?, h]
    · simp [Props.put, Props.get?, h, ih]

theorem Props.get?_put_of_ne {α : Type} (m : Props α) (k k₁ : String) (v : α) (hne : k ≠ k₁) :
    (m.put k v).get? k₁ = m.get? k₁ := by
  induction m with
  | nil => simp [Props.put, Props.get?, hne]
  | cons kv rest ih =>
    obtain ⟨k', v'⟩ := kv
    by_cases h : k' = k
    · subst h
      simp [Props.put, Props.get?, hne]
    · by_cases h₁ : k' = k₁
      · subst h₁
        simp [Props.put, Props.get?, h]
      · simp [Props.put, Props.get?, h, h₁, ih]

/-! ## The attendance map -/

theorem buildAttendanceMap_append (records : List AttendanceRecord) (record : AttendanceRecord) :
    buildAttendanceMap (records ++ [record])
      = attendanceMapAssign (buildAttendanceMap records) record := by
  simp [buildAttendanceMap, List.foldl_append]

/-- No record creates an own property `__proto__` in `attendanceMap`. -/
theorem buildAttendanceMap_get?_proto (records : List AttendanceRecord) :
    (buildAttendanceMap records).get? "__proto__" = none := by
  induction records using List.reverseRecOn with
  | nil => rfl
  | append_singleton rs r ih =>
    rw [buildAttendanceMap_append]
    unfold attendanceMapAssign
    by_cases h : r.employeeId = "__proto__"
    · simp [h, ih]
    · simp only [h, if_false]
      rw [Props.get?_put_of_ne _ _ _ _ h, ih]

/-- For every other key the own property of `attendanceMap` is the status of the last record
with that `employeeId`. -/
theorem buildAttendanceMap_get? (records : List AttendanceRecord) (key : String)
    (hkey : key ≠ "__proto__") :
    (buildAttendanceMap records).get? key = lastStatus? records key := by
  induction records using List.reverseRecOn with
  | nil => rfl
  | append_singleton rs r ih =>
    rw [buildAttendanceMap_append]
    unfold attendanceMapAssign
    by_cases h : r.employeeId = key
    · have h' : r.employeeId ≠ "__proto__" := by rw [h]; exact hkey
      simp only [h', if_false]
      rw [h, Props.get?_put_self]
      simp [lastStatus?, List.filter_append, h]
    · by_cases hp : r.employeeId = "__proto__"
      · simp only [hp, if_true]
        rw [ih]
        simp [lastStatus?, List.filter_append, h]
      · simp only [hp, if_false]
        rw [Props.get?_put_of_ne _ _ _ _ h, ih]
        simp [lastStatus?, List.filter_append, h]

/-- A record with another `employeeId` has no effect on the status resolved for a key. -/
theorem resolveStatus_erase (records : List AttendanceRecord) (record : AttendanceRecord)
    (key : String) (hne : record.employeeId ≠ key) :
    resolveStatus (buildAttendanceMap (records.erase record)) key
      = resolveStatus (buildAttendanceMap records) key := by
  have hfilter : (records.erase record).filter (fun r => r.employeeId = key)
      = records.filter (fun r => r.employeeId = key) := by
    induction records with
    | nil => rfl
    | cons a l ih =>
      by_cases ha : a = record
      · subst ha
        simp [hne]
      · have hb : (a == record) = false := by simpa using ha
        rw [List.erase_cons, hb]
        simp only [Bool.false_eq_true, if_false, List.filter_cons, ih]
  by_cases hkey : key = "__proto__"
  · subst hkey
    simp [resolveStatus, attendanceMapRead, buildAttendanceMap_get?_proto]
  · simp [resolveStatus, attendanceMapRead, buildAttendanceMap_get? _ _ hkey, lastStatus?, hfilter]

/-- The status resolved for a key other than `__proto__` whose last record has a non-empty
status. -/
theorem resolveStatus_of_last (records : List AttendanceRecord) (key : String)
    (record : AttendanceRecord) (hkey : key ≠ "__proto__")
    (hlast : (records.filter fun r => r.employeeId = key).getLast? = some record)
    (hstatus : record.status ≠ "") :
    resolveStatus (buildAttendanceMap records) key = .str record.status := by
  simp [resolveStatus, attendanceMapRead, buildAttendanceMap_get? _ _ hkey, lastStatus?, hlast,
    JSVal.or, JSVal.truthy, hstatus]

/-- The status resolved for a key that no record matches and that `Object.prototype` does not
define. -/
theorem resolveStatus_of_unmatched (records : List AttendanceRecord) (key : String)
    (hkey : key ∉ objectPrototypeKeys)
    (hnone : ∀ r ∈ records, r.employeeId ≠ key) :
    resolveStatus (buildAttendanceMap records) key = .str "Not Marked" := by
  have hp : key ≠ "__proto__" := by
    intro h
    apply hkey
    rw [h]
    decide
  have hfilter : records.filter (fun r => r.employeeId = key) = [] := by
    simpa [List.filter_eq_nil_iff] using hnone
  simp [resolveStatus, attendanceMapRead, buildAttendanceMap_get? _ _ hp, lastStatus?, hfilter,
    hkey, JSVal.or, JSVal.truthy]

/-! ## The daily merge: claims -/

theorem employeesWithAttendance_getElem? (employees : List Employee)
    (records : List AttendanceRecord) (i : Nat) :
    (employeesWithAttendance employees records)[i]?
      = (employees[i]?).map fun emp =>
          { employeeId := emp.employeeId, fullName := emp.fullName, email := emp.email,
            department := emp.department,
            status := resolveStatus (buildAttendanceMap records) emp.employeeId } := by
  simp [employeesWithAttendance]

theorem handleDateChangeMerge_getElem? (employees : List RosterEntry)
    (records : List AttendanceRecord) (i : Nat) :
    (handleDateChangeMerge employees records)[i]?
      = (employees[i]?).map fun emp =>
          { emp with status := resolveStatus (buildAttendanceMap records) emp.employeeId } := by
  simp [handleDateChangeMerge]

/-- C1, as stated, fails: with the single record `{E1, 2024-01-01, ""}` exactly one record has
the employeeId of `E1` and its status is the empty string, yet the roster entry of `E1` has
status `Not Marked`, because `"" || 'Not Marked'` is `'Not Marked'`. -/
theorem emptyStatus_single_record_not_kept :
    ([(⟨"E1", "2024-01-01", ""⟩ : AttendanceRecord)].filter fun x => x.employeeId = "E1")
        = [⟨"E1", "2024-01-01", ""⟩]
      ∧ (employeesWithAttendance [⟨"E1", "Ann", "ann@x.io", "HR"⟩] [⟨"E1", "2024-01-01", ""⟩]).map
          (·.status) = [.str "Not Marked"]
      ∧ (handleDateChangeMerge [⟨"E1", "Ann", "ann@x.io", "HR", .str "Present"⟩]
          [⟨"E1", "2024-01-01", ""⟩]).map (·.status) = [.str "Not Marked"]
      ∧ JSVal.str "Not Marked" ≠ JSVal.str "" := by
  decide

/-- C1 (amended): in the merge of `fetchEmployees` and of `handleDateChange`, if exactly one
record has the employeeId of an employee and that record's status is `S`, then, provided `S` is
a non-empty string and the employeeId is not `__proto__`, every roster entry with that
employeeId has status `S`; and, whatever `S` is, the entry of every employee with another
employeeId is the one obtained with that record removed from the list. -/
theorem dailyStatus_single_record (employees : List Employee) (roster : List RosterEntry)
    (records : List AttendanceRecord) (record : AttendanceRecord) (S : String)
    (hone : (records.filter fun x => x.employeeId = record.employeeId) = [record])
    (hS : record.status = S) :
    (S ≠ "" → record.employeeId ≠ "__proto__" →
        (∀ (i : Nat) (emp : Employee), employees[i]? = some emp →
          emp.employeeId = record.employeeId →
          ((employeesWithAttendance employees records)[i]?).map (·.status) = some (.str S))
        ∧ (∀ (i : Nat) (emp : RosterEntry), roster[i]? = some emp →
          emp.employeeId = record.employeeId →
          ((handleDateChangeMerge roster records)[i]?).map (·.status) = some (.str S)))
      ∧ (∀ (i : Nat) (emp : Employee), employees[i]? = some emp →
        emp.employeeId ≠ record.employeeId →
        (employeesWithAttendance employees records)[i]?
          = (employeesWithAttendance employees (records.erase record))[i]?)
      ∧ (∀ (i : Nat) (emp : RosterEntry), roster[i]? = some emp →
        emp.employeeId ≠ record.employeeId →
        (handleDateChangeMerge roster records)[i]?
          = (handleDateChangeMerge roster (records.erase record))[i]?) := by
  refine ⟨?_, ?_, ?_⟩
  · intro hnonempty hproto
    have hlast : (records.filter fun x => x.employeeId = record.employeeId).getLast?
        = some record := by rw [hone]; rfl
    have hst : record.status ≠ "" := by rw [hS]; exact hnonempty
    have key := resolveStatus_of_last records record.employeeId record hproto hlast hst
    rw [hS] at key
    refine ⟨?_, ?_⟩
    · intro i emp hi hid
      rw [employeesWithAttendance_getElem?, hi]
      simp [hid, key]
    · intro i emp hi hid
      rw [handleDateChangeMerge_getElem?, hi]
      simp [hid, key]
  · intro i emp hi hid
    rw [employeesWithAttendance_getElem?, employeesWithAttendance_getElem?, hi]
    simp [resolveStatus_erase records record emp.employeeId (Ne.symm hid)]
  · intro i emp hi hid
    rw [handleDateChangeMerge_getElem?, handleDateChangeMerge_getElem?, hi]
    simp [resolveStatus_erase records record emp.employeeId (Ne.symm hid)]

/-- The spec scenario of C1: employees `E1`, `E2` and the single record `{E1, 2024-01-01, Present}`
give `E1` the status `Present`. -/
theorem dailyStatus_single_record_witness :
    ([(⟨"E1", "2024-01-01", "Present"⟩ : AttendanceRecord)].filter fun x => x.employeeId = "E1")
        = [⟨"E1", "2024-01-01", "Present"⟩]
      ∧ ((employeesWithAttendance [⟨"E1", "Ann", "ann@x.io", "HR"⟩, ⟨"E2", "Bob", "bob@x.io", "Sales"⟩]
          [⟨"E1", "2024-01-01", "Present"⟩])[0]?).map (·.status) = some (.str "Present") :=
  ⟨by decide,
   ((dailyStatus_single_record
      [⟨"E1", "Ann", "ann@x.io", "HR"⟩, ⟨"E2", "Bob", "bob@x.io", "Sales"⟩] []
      [⟨"E1", "2024-01-01", "Present"⟩] ⟨"E1", "2024-01-01", "Present"⟩ "Present"
      (by decide) rfl).1 (by decide) (by decide)).1 0 ⟨"E1", "Ann", "ann@x.io", "HR"⟩ rfl rfl⟩

/-- C2 fails on the code: an employee whose employeeId is `constructor`, matched by no record
(the record list is empty), gets as status the member `constructor` inherited by `attendanceMap`
from `Object.prototype`, not `Not Marked`; so does one named `toString`. -/
theorem dailyStatus_unmatched_prototype_key :
    (employeesWithAttendance
        [⟨"constructor", "Ann", "ann@x.io", "HR"⟩, ⟨"toString", "Bob", "bob@x.io", "Sales"⟩]
        []).map (·.status) = [.inherited "constructor", .inherited "toString"]
      ∧ JSVal.inherited "constructor" ≠ JSVal.str "Not Marked" := by
  decide

/-- An employee matched by no record, and not named like a member of `Object.prototype`, gets
the status `Not Marked`. -/
theorem dailyStatus_unmatched_of_plain_key (employees : List Employee)
    (records : List AttendanceRecord) (i : Nat) (emp : Employee)
    (hi : employees[i]? = some emp) (hkey : emp.employeeId ∉ objectPrototypeKeys)
    (hnone : ∀ r ∈ records, r.employeeId ≠ emp.employeeId) :
    ((employeesWithAttendance employees records)[i]?).map (·.status)
      = some (.str "Not Marked") := by
  rw [employeesWithAttendance_getElem?, hi]
  simp [resolveStatus_of_unmatched records emp.employeeId hkey hnone]

/-- C8, as stated, fails: with the records `{E1, Present}` then `{E1, ""}` the last record of
`E1` has the empty status, and the roster status of `E1` is `Not Marked`. -/
theorem emptyStatus_last_record_not_kept :
    1 < (([⟨"E1", "2024-01-01", "Present"⟩, ⟨"E1", "2024-01-01", ""⟩] :
          List AttendanceRecord).filter fun x => x.employeeId = "E1").length
      ∧ (([⟨"E1", "2024-01-01", "Present"⟩, ⟨"E1", "2024-01-01", ""⟩] :
          List AttendanceRecord).filter fun x => x.employeeId = "E1").getLast?
          = some ⟨"E1", "2024-01-01", ""⟩
      ∧ (employeesWithAttendance [⟨"E1", "Ann", "ann@x.io", "HR"⟩]
          [⟨"E1", "2024-01-01", "Present"⟩, ⟨"E1", "2024-01-01", ""⟩]).map (·.status)
          = [.str "Not Marked"]
      ∧ (handleDateChangeMerge [⟨"E1", "Ann", "ann@x.io", "HR", .undefined⟩]
          [⟨"E1", "2024-01-01", "Present"⟩, ⟨"E1", "2024-01-01", ""⟩]).map (·.status)
          = [.str "Not Marked"]
      ∧ JSVal.str "Not Marked" ≠ JSVal.str "" := by
  decide

/-- C8 (amended): in the merge of `fetchEmployees` and of `handleDateChange`, when the record
list holds more than one record for an employeeId other than `__proto__` and the last of them
in list order has a non-empty status, every roster entry with that employeeId has the status of
that last record. -/
theorem dailyStatus_last_record (employees : List Employee) (roster : List RosterEntry)
    (records : List AttendanceRecord) (key : String) (record : AttendanceRecord)
    (_hmany : 1 < (records.filter fun x => x.employeeId = key).length)
    (hlast : (records.filter fun x => x.employeeId = key).getLast? = some record)
    (hnonempty : record.status ≠ "") (hproto : key ≠ "__proto__") :
    (∀ (i : Nat) (emp : Employee), employees[i]? = some emp → emp.employeeId = key →
        ((employeesWithAttendance employees records)[i]?).map (·.status)
          = some (.str record.status))
      ∧ (∀ (i : Nat) (emp : RosterEntry), roster[i]? = some emp → emp.employeeId = key →
        ((handleDateChangeMerge roster records)[i]?).map (·.status)
          = some (.str record.status)) := by
  have key' := resolveStatus_of_last records key record hproto hlast hnonempty
  refine ⟨?_, ?_⟩
  · intro i emp hi hid
    rw [employeesWithAttendance_getElem?, hi]
    simp [hid, key']
  · intro i emp hi hid
    rw [handleDateChangeMerge_getElem?, hi]
    simp [hid, key']

/-- Two records for `E1`, `Absent` then `Present`: the roster shows `Present`. -/
theorem dailyStatus_last_record_witness :
    (([⟨"E1", "2024-01-01", "Absent"⟩, ⟨"E1", "2024-01-01", "Present"⟩] :
        List AttendanceRecord).filter fun x => x.employeeId = "E1").getLast?
        = some ⟨"E1", "2024-01-01", "Present"⟩
      ∧ ((employeesWithAttendance [⟨"E1", "Ann", "ann@x.io", "HR"⟩]
          [⟨"E1", "2024-01-01", "Absent"⟩, ⟨"E1", "2024-01-01", "Present"⟩])[0]?).map (·.status)
          = some (.str "Present") :=
  ⟨by decide,
   (dailyStatus_last_record [⟨"E1", "Ann", "ann@x.io", "HR"⟩] []
      [⟨"E1", "2024-01-01", "Absent"⟩, ⟨"E1", "2024-01-01", "Present"⟩] "E1"
      ⟨"E1", "2024-01-01", "Present"⟩ (by decide) (by decide) (by decide) (by decide)).1
      0 ⟨"E1", "Ann", "ann@x.io", "HR"⟩ rfl rfl⟩

/-- C9: the roster built by `fetchEmployees` has one entry per employee, in the same order,
each with the employee's `employeeId`, `fullName`, `email` and `department` (dropping `status`
from the roster gives back the employee list); an empty employee list gives an empty roster.
The merge of `handleDateChange` keeps the entries of the current roster in the same way. -/
theorem dailyStatus_frame (employees : List Employee) (roster : List RosterEntry)
    (records : List AttendanceRecord) :
    (employeesWithAttendance employees records).length = employees.length
      ∧ (employeesWithAttendance employees records).map RosterEntry.toEmployee = employees
      ∧ employeesWithAttendance [] records = []
      ∧ (handleDateChangeMerge roster records).length = roster.length
      ∧ (handleDateChangeMerge roster records).map RosterEntry.toEmployee
          = roster.map RosterEntry.toEmployee
      ∧ handleDateChangeMerge [] records = [] := by
  refine ⟨by simp [employeesWithAttendance], ?_, rfl, by simp [handleDateChangeMerge], ?_, rfl⟩
  · simp only [employeesWithAttendance, List.map_map]
    conv_rhs => rw [← List.map_id employees]
    apply List.map_congr_left
    intro emp _
    rfl
  · simp only [handleDateChangeMerge, List.map_map]
    apply List.map_congr_left
    intro emp _
    rfl

/-! ## The local update of `handleAttendanceChange`: claims -/

theorem applyStatusUpdate_getElem? (employees : List RosterEntry) (employeeId status : String)
    (i : Nat) :
    (applyStatusUpdate employees employeeId status)[i]?
      = (employees[i]?).map fun emp =>
          if emp.employeeId = employeeId then { emp with status := .str status } else emp := by
  simp [applyStatusUpdate]

/-- C6: `applyStatusUpdate` keeps the length and the order of the roster (the employeeIds are
the same list), and an entry whose employeeId differs from `id` is the input entry at the same
position, unchanged. -/
theorem applyStatusUpdate_frame (roster : List RosterEntry) (id S : String) :
    (applyStatusUpdate roster id S).length = roster.length
      ∧ (applyStatusUpdate roster id S).map (·.employeeId) = roster.map (·.employeeId)
      ∧ ∀ (i : Nat) (emp : RosterEntry), roster[i]? = some emp → emp.employeeId ≠ id →
          (applyStatusUpdate roster id S)[i]? = some emp := by
  refine ⟨by simp [applyStatusUpdate], ?_, ?_⟩
  · simp only [applyStatusUpdate, List.map_map]
    apply List.map_congr_left
    intro emp _
    by_cases h : emp.employeeId = id <;> simp [h]
  · intro i emp hi hne
    rw [applyStatusUpdate_getElem?, hi]
    simp [hne]

/-- Marking `E1` leaves the entry of `E2` as it was. -/
theorem applyStatusUpdate_frame_witness :
    (applyStatusUpdate [⟨"E1", "Ann", "ann@x.io", "HR", .str "Not Marked"⟩,
        ⟨"E2", "Bob", "bob@x.io", "Sales", .str "Absent"⟩] "E1" "Present")[1]?
      = some ⟨"E2", "Bob", "bob@x.io", "Sales", .str "Absent"⟩ :=
  (applyStatusUpdate_frame [⟨"E1", "Ann", "ann@x.io", "HR", .str "Not Marked"⟩,
      ⟨"E2", "Bob", "bob@x.io", "Sales", .str "Absent"⟩] "E1" "Present").2.2
    1 ⟨"E2", "Bob", "bob@x.io", "Sales", .str "Absent"⟩ rfl (by decide)

/-- C7: for every string `newStatus`, an entry whose employeeId equals `id` becomes the same
entry with `status` replaced by `newStatus`; its other fields are unchanged. -/
theorem applyStatusUpdate_match (roster : List RosterEntry) (id newStatus : String)
    (i : Nat) (emp : RosterEntry) (hi : roster[i]? = some emp) (hid : emp.employeeId = id) :
    (applyStatusUpdate roster id newStatus)[i]?
        = some { employeeId := emp.employeeId, fullName := emp.fullName, email := emp.email,
                 department := emp.department, status := .str newStatus } := by
  rw [applyStatusUpdate_getElem?, hi]
  simp [hid]

/-- A status outside `Present`/`Absent` is stored as given. -/
theorem applyStatusUpdate_match_witness :
    (applyStatusUpdate [⟨"E1", "Ann", "ann@x.io", "HR", .str "Not Marked"⟩,
        ⟨"E2", "Bob", "bob@x.io", "Sales", .str "Absent"⟩] "E2" "On Leave")[1]?
      = some ⟨"E2", "Bob", "bob@x.io", "Sales", .str "On Leave"⟩ :=
  applyStatusUpdate_match [⟨"E1", "Ann", "ann@x.io", "HR", .str "Not Marked"⟩,
      ⟨"E2", "Bob", "bob@x.io", "Sales", .str "Absent"⟩] "E2" "On Leave"
    1 ⟨"E2", "Bob", "bob@x.io", "Sales", .str "Absent"⟩ rfl rfl

/-! ## The range summary: the loop invariant -/

theorem Props.get?_eq_none_iff {α : Type} (m : Props α) (k : String) :
    m.get? k = none ↔ k ∉ m.map Prod.fst := by
  induction m with
  | nil => simp [Props.get?]
  | cons kv rest ih =>
    obtain ⟨k', v'⟩ := kv
    by_cases h : k' = k
    · simp [Props.get?, h]
    · have h' : ¬ k = k' := fun e => h e.symm
      simp [Props.get?, h, h', ih]

theorem Props.mem_of_get? {α : Type} (m : Props α) (k : String) (v : α)
    (h : m.get? k = some v) : (k, v) ∈ m := by
  induction m with
  | nil => simp [Props.get?] at h
  | cons kv rest ih =>
    obtain ⟨k', v'⟩ := kv
    by_cases hk : k' = k
    · subst hk
      simp [Props.get?] at h
      simp [h]
    · simp [Props.get?, hk] at h
      exact List.mem_cons_of_mem _ (ih h)

theorem Props.get?_of_mem {α : Type} (m : Props α) (k : String) (v : α)
    (hnodup : (m.map Prod.fst).Nodup) (h : (k, v) ∈ m) : m.get? k = some v := by
  induction m with
  | nil => simp at h
  | cons kv rest ih =>
    obtain ⟨k', v'⟩ := kv
    simp only [List.map_cons, List.nodup_cons] at hnodup
    rcases List.mem_cons.mp h with heq | hmem
    · cases heq
      simp [Props.get?]
    · have hk : k' ≠ k := by
        intro e
        apply hnodup.1
        rw [e]
        exact List.mem_map_of_mem Prod.fst hmem
      simp [Props.get?, hk, ih hnodup.2 hmem]

theorem Props.keys_put {α : Type} (m : Props α) (k : String) (v : α) :
    (m.put k v).map Prod.fst
      = if k ∈ m.map Prod.fst then m.map Prod.fst else m.map Prod.fst ++ [k] := by
  induction m with
  | nil => simp [Props.put]
  | cons kv rest ih =>
    obtain ⟨k', v'⟩ := kv
    by_cases h : k' = k
    · subst h
      simp [Props.put]
    · have h' : ¬ k = k' := fun e => h e.symm
      simp only [Props.put, h, if_false, List.map_cons, ih, List.mem_cons, h', false_or]
      split <;> simp

theorem Props.nodup_keys_put {α : Type} (m : Props α) (k : String) (v : α)
    (hnodup : (m.map Prod.fst).Nodup) : ((m.put k v).map Prod.fst).Nodup := by
  rw [Props.keys_put]
  split
  · exact hnodup
  · rename_i hk
    rw [List.nodup_append]
    refine ⟨hnodup, by simp, ?_⟩
    intro a ha hb
    simp only [List.mem_singleton] at hb
    exact hk (hb ▸ ha)

theorem groupOf_add (key : String) (seen : List AttendanceRecord) (record : AttendanceRecord)
    (hkey : record.employeeId = key) :
    (groupOf key seen).add record = groupOf key (seen ++ [record]) := by
  by_cases hp : record.status = "Present" <;>
    simp [groupOf, Group.add, List.filter_append, hkey, hp, List.countP_cons]

theorem groupOf_append_of_ne (key : String) (seen : List AttendanceRecord)
    (record : AttendanceRecord) (hkey : record.employeeId ≠ key) :
    groupOf key (seen ++ [record]) = groupOf key seen := by
  simp [groupOf, List.filter_append, hkey]

theorem groupOf_of_unseen (key : String) (seen : List AttendanceRecord)
    (hnone : ∀ r ∈ seen, r.employeeId ≠ key) :
    groupOf key seen = { employeeId := key, records := [], presentDays := 0, absentDays := 0 } := by
  have hfilter : seen.filter (fun r => r.employeeId = key) = [] := by
    simpa [List.filter_eq_nil_iff] using hnone
  simp [groupOf, hfilter]

theorem GroupsOf.nil : GroupsOf [] [] := by
  refine ⟨by simp, ?_, ?_⟩
  · intro k g h
    simp [Props.get?] at h
  · intro k _ r hr
    simp at hr

/-- One turn of the loop keeps the invariant. -/
theorem GroupsOf.step {seen : List AttendanceRecord} {employeeMap employeeMap' : Props Group}
    {record : AttendanceRecord} (hinv : GroupsOf seen employeeMap)
    (hstep : groupStep employeeMap record = some employeeMap') :
    GroupsOf (seen ++ [record]) employeeMap' := by
  obtain ⟨hnodup, hsome, hnone⟩ := hinv
  have hframe : ∀ (v : Group) (k : String) (g : Group),
      (employeeMap.put record.employeeId v).get? k = some g →
      v = groupOf record.employeeId (seen ++ [record]) →
      record.employeeId ∉ objectPrototypeKeys →
      g = groupOf k (seen ++ [record]) ∧ (∃ r ∈ seen ++ [record], r.employeeId = k)
        ∧ k ∉ objectPrototypeKeys := by
    intro v k g hget hv hplain
    by_cases hk : record.employeeId = k
    · subst hk
      rw [Props.get?_put_self] at hget
      cases hget
      exact ⟨hv, ⟨record, by simp, rfl⟩, hplain⟩
    · rw [Props.get?_put_of_ne _ _ _ _ hk] at hget
      obtain ⟨h1, ⟨r, hr, hrk⟩, h3⟩ := hsome k g hget
      refine ⟨?_, ⟨r, by simp [hr], hrk⟩, h3⟩
      rw [groupOf_append_of_ne k seen record hk]
      exact h1
  have hnone' : ∀ (v : Group) (k : String),
      (employeeMap.put record.employeeId v).get? k = none →
      ∀ r ∈ seen ++ [record], r.employeeId ≠ k := by
    intro v k hget r hr
    have hk : record.employeeId ≠ k := by
      intro e
      rw [e, Props.get?_put_self] at hget
      cases hget
    rw [Props.get?_put_of_ne _ _ _ _ hk] at hget
    rcases List.mem_append.mp hr with h | h
    · exact hnone k hget r h
    · simp only [List.mem_singleton] at h
      rw [h]
      exact hk
  unfold groupStep at hstep
  cases hget : employeeMap.get? record.employeeId with
  | some group =>
    rw [hget] at hstep
    simp only [Option.some.injEq] at hstep
    subst hstep
    obtain ⟨hg, _, hplain⟩ := hsome _ _ hget
    refine ⟨Props.nodup_keys_put _ _ _ hnodup, ?_, hnone' _⟩
    intro k g h
    refine hframe _ k g h ?_ hplain
    rw [hg]
    exact groupOf_add _ _ _ rfl
  | none =>
    rw [hget] at hstep
    by_cases hplain : record.employeeId ∈ objectPrototypeKeys
    · simp [hplain] at hstep
    · simp only [hplain, if_false, Option.some.injEq] at hstep
      subst hstep
      refine ⟨Props.nodup_keys_put _ _ _ hnodup, ?_, hnone' _⟩
      intro k g h
      refine hframe _ k g h ?_ hplain
      rw [← groupOf_of_unseen record.employeeId seen (hnone _ hget)]
      exact groupOf_add _ _ _ rfl

/-- The loop keeps the invariant. -/
theorem GroupsOf.loop (rest : List AttendanceRecord) :
    ∀ {seen : List AttendanceRecord} {employeeMap out : Props Group},
      GroupsOf seen employeeMap → groupRecords employeeMap rest = some out →
      GroupsOf (seen ++ rest) out := by
  induction rest with
  | nil =>
    intro seen employeeMap out hinv hrun
    simp only [groupRecords, Option.some.injEq] at hrun
    subst hrun
    simpa using hinv
  | cons record rest ih =>
    intro seen employeeMap out hinv hrun
    simp only [groupRecords] at hrun
    cases hstep : groupStep employeeMap record with
    | none => simp [hstep] at hrun
    | some employeeMap' =>
      rw [hstep] at hrun
      have := ih (hinv.step hstep) hrun
      simpa using this

/-- The loop runs to its end when no record is named like a member of `Object.prototype`. -/
theorem groupRecords_isSome (rest : List AttendanceRecord)
    (hplain : ∀ r ∈ rest, r.employeeId ∉ objectPrototypeKeys) :
    ∀ employeeMap : Props Group, ∃ out, groupRecords employeeMap rest = some out := by
  induction rest with
  | nil => intro employeeMap; exact ⟨employeeMap, rfl⟩
  | cons record rest ih =>
    intro employeeMap
    have h1 : record.employeeId ∉ objectPrototypeKeys := hplain record (by simp)
    have h2 : ∀ r ∈ rest, r.employeeId ∉ objectPrototypeKeys :=
      fun r hr => hplain r (List.mem_cons_of_mem _ hr)
    have hstep : ∃ m, groupStep employeeMap record = some m := by
      unfold groupStep
      cases employeeMap.get? record.employeeId with
      | some g => exact ⟨_, rfl⟩
      | none => simp [h1]
    obtain ⟨m, hm⟩ := hstep
    obtain ⟨out, hout⟩ := ih h2 m
    exact ⟨out, by simp [groupRecords, hm, hout]⟩

/-! ## The range summary: `Object.values` and the result -/

theorem objectValues_perm {α : Type} (obj : Props α) :
    (objectValues obj).Perm (obj.map Prod.snd) := by
  have hindexed : (obj.filterMap fun kv => (arrayIndex? kv.1).map fun n => (n, kv.2)).map
      Prod.snd = (obj.filter fun kv => (arrayIndex? kv.1).isSome).map Prod.snd := by
    induction obj with
    | nil => rfl
    | cons kv rest ih =>
      cases h : arrayIndex? kv.1 with
      | none => simp [List.filterMap_cons, List.filter_cons, h, ih]
      | some n => simp [List.filterMap_cons, List.filter_cons, h, ih]
  have hnamed : (obj.filter fun kv => (arrayIndex? kv.1).isNone)
      = obj.filter fun kv => !(arrayIndex? kv.1).isSome := by
    apply List.filter_congr
    intro kv _
    cases arrayIndex? kv.1 <;> rfl
  unfold objectValues
  simp only []
  rw [hnamed]
  refine List.Perm.trans (List.Perm.append_right _
    ((List.perm_insertionSort _ _).map Prod.snd)) ?_
  rw [hindexed, ← List.map_append]
  exact (List.filter_append_perm _ obj).map Prod.snd

/-- Each value listed by `Object.values(employeeMap)` after the loop is the group of a key that
occurs in the records. -/
theorem GroupsOf.of_mem_objectValues {records : List AttendanceRecord}
    {employeeMap : Props Group} (hinv : GroupsOf records employeeMap) (group : Group)
    (hmem : group ∈ objectValues employeeMap) :
    ∃ k, group = groupOf k records ∧ (∃ r ∈ records, r.employeeId = k)
      ∧ k ∉ objectPrototypeKeys := by
  have h1 : group ∈ employeeMap.map Prod.snd := (objectValues_perm employeeMap).mem_iff.mp hmem
  obtain ⟨⟨k, g⟩, hkg, hg⟩ := List.mem_map.mp h1
  simp only at hg
  subst hg
  exact ⟨k, hinv.2.1 k g (Props.get?_of_mem _ _ _ hinv.1 hkg)⟩

/-- The employeeIds of the values listed by `Object.values(employeeMap)` after the loop are the
keys of `employeeMap`, up to order. -/
theorem GroupsOf.objectValues_ids {records : List AttendanceRecord}
    {employeeMap : Props Group} (hinv : GroupsOf records employeeMap) :
    ((objectValues employeeMap).map (·.employeeId)).Perm (employeeMap.map Prod.fst) := by
  have hkeys : (employeeMap.map Prod.snd).map (·.employeeId) = employeeMap.map Prod.fst := by
    rw [List.map_map]
    apply List.map_congr_left
    intro kv hkv
    obtain ⟨k, g⟩ := kv
    have := (hinv.2.1 k g (Props.get?_of_mem _ _ _ hinv.1 hkv)).1
    simp [this, groupOf]
  rw [← hkeys]
  exact (objectValues_perm employeeMap).map _

/-- What `fetchAttendanceRecords` passes to `setAttendanceRecords`, when the grouping does not
throw: the summaries of `employeeMap`, which satisfies the loop invariant. -/
theorem recordsWithDetails_eq_some {records : List AttendanceRecord} {employees : List Employee}
    {out : List Summary} (hout : recordsWithDetails records employees = some out) :
    ∃ employeeMap, GroupsOf records employeeMap
      ∧ out = (objectValues employeeMap).map fun g => summaryOf g.employeeId records employees := by
  unfold recordsWithDetails at hout
  cases hrun : groupRecords [] records with
  | none => simp [hrun] at hout
  | some employeeMap =>
    have hinv : GroupsOf records employeeMap := by
      have := GroupsOf.loop records GroupsOf.nil hrun
      simpa using this
    refine ⟨employeeMap, hinv, ?_⟩
    simp only [hrun, Option.some.injEq] at hout
    rw [← hout]
    apply List.map_congr_left
    intro g hg
    obtain ⟨k, hk, _, _⟩ := hinv.of_mem_objectValues g hg
    subst hk
    rfl

/-- Every summary produced is the summary of an employeeId that occurs in the records. -/
theorem recordsWithDetails_mem {records : List AttendanceRecord} {employees : List Employee}
    {out : List Summary} (hout : recordsWithDetails records employees = some out)
    (summary : Summary) (hmem : summary ∈ out) :
    ∃ k, summary = summaryOf k records employees ∧ (∃ r ∈ records, r.employeeId = k)
      ∧ k ∉ objectPrototypeKeys := by
  obtain ⟨employeeMap, hinv, rfl⟩ := recordsWithDetails_eq_some hout
  obtain ⟨g, hg, rfl⟩ := List.mem_map.mp hmem
  obtain ⟨k, hk, hocc, hplain⟩ := hinv.of_mem_objectValues g hg
  subst hk
  exact ⟨k, rfl, hocc, hplain⟩

/-- The grouping runs to its end, and summaries are produced, when no record is named like a
member of `Object.prototype`. -/
theorem recordsWithDetails_isSome (records : List AttendanceRecord) (employees : List Employee)
    (hplain : ∀ r ∈ records, r.employeeId ∉ objectPrototypeKeys) :
    ∃ out, recordsWithDetails records employees = some out := by
  obtain ⟨employeeMap, h⟩ := groupRecords_isSome records hplain []
  simp [recordsWithDetails, h]

/-- The employeeIds of the summaries produced: no employeeId twice, and exactly the
employeeIds that occur in the records. -/
theorem recordsWithDetails_ids {records : List AttendanceRecord} {employees : List Employee}
    {out : List Summary} (hout : recordsWithDetails records employees = some out) :
    (out.map (·.employeeId)).Nodup
      ∧ ∀ k, k ∈ out.map (·.employeeId) ↔ k ∈ records.map (·.employeeId) := by
  obtain ⟨employeeMap, hinv, rfl⟩ := recordsWithDetails_eq_some hout
  have hids : ((objectValues employeeMap).map fun g =>
      summaryOf g.employeeId records employees).map (·.employeeId)
      = (objectValues employeeMap).map (·.employeeId) := by
    rw [List.map_map]
    rfl
  rw [hids]
  refine ⟨(hinv.objectValues_ids.nodup_iff).mpr hinv.1, ?_⟩
  intro k
  rw [hinv.objectValues_ids.mem_iff]
  constructor
  · intro hk
    cases hget : employeeMap.get? k with
    | none => exact absurd hk ((Props.get?_eq_none_iff _ _).mp hget)
    | some g =>
      obtain ⟨_, ⟨r, hr, hrk⟩, _⟩ := hinv.2.1 k g hget
      exact List.mem_map.mpr ⟨r, hr, hrk⟩
  · intro hk
    obtain ⟨r, hr, hrk⟩ := List.mem_map.mp hk
    by_contra hnot
    exact hinv.2.2 k ((Props.get?_eq_none_iff _ _).mpr hnot) r hr hrk

/-! ## The range summary: claims -/

/-- C3: in every summary that `fetchAttendanceRecords` produces, `presentDays + absentDays` is
the length of the summary's `records` list. -/
theorem rangeSummary_counters_sum (records : List AttendanceRecord) (employees : List Employee)
    (out : List Summary) (hout : recordsWithDetails records employees = some out)
    (summary : Summary) (hmem : summary ∈ out) :
    summary.presentDays + summary.absentDays = summary.records.length := by
  obtain ⟨k, rfl, _, _⟩ := recordsWithDetails_mem hout summary hmem
  simp only [summaryOf, groupOf]
  rw [List.length_eq_countP_add_countP (fun r : AttendanceRecord => decide (r.status = "Present"))]
  simp

/-- The spec scenario of C3: `E1` has one present and one absent day over two records. -/
theorem rangeSummary_counters_sum_witness :
    recordsWithDetails
        [⟨"E1", "2024-01-01", "Present"⟩, ⟨"E1", "2024-01-02", "Absent"⟩,
         ⟨"E2", "2024-01-01", "Present"⟩] []
      = some [⟨"E1", [⟨"E1", "2024-01-01", "Present"⟩, ⟨"E1", "2024-01-02", "Absent"⟩], 1, 1,
                .undefined⟩,
              ⟨"E2", [⟨"E2", "2024-01-01", "Present"⟩], 1, 0, .undefined⟩]
      ∧ 1 + 1 = ([⟨"E1", "2024-01-01", "Present"⟩, ⟨"E1", "2024-01-02", "Absent"⟩] :
          List AttendanceRecord).length :=
  ⟨by decide,
   rangeSummary_counters_sum
     [⟨"E1", "2024-01-01", "Present"⟩, ⟨"E1", "2024-01-02", "Absent"⟩,
      ⟨"E2", "2024-01-01", "Present"⟩] []
     [⟨"E1", [⟨"E1", "2024-01-01", "Present"⟩, ⟨"E1", "2024-01-02", "Absent"⟩], 1, 1, .undefined⟩,
      ⟨"E2", [⟨"E2", "2024-01-01", "Present"⟩], 1, 0, .undefined⟩]
     (by decide)
     ⟨"E1", [⟨"E1", "2024-01-01", "Present"⟩, ⟨"E1", "2024-01-02", "Absent"⟩], 1, 1, .undefined⟩
     (by decide)⟩

/-- C4 fails on the code: with a record of `E1` followed by a record whose employeeId is
`constructor`, the loop throws at the second record (`employeeMap["constructor"]` is the
inherited function, so no group is created and `.records` is `undefined`); no summary is
produced, neither for `constructor` nor for `E1`, though both occur in the record list. -/
theorem rangeSummary_ids_prototype_key :
    recordsWithDetails
        [⟨"E1", "2024-01-01", "Present"⟩, ⟨"constructor", "2024-01-01", "Present"⟩]
        [⟨"E1", "Ann", "ann@x.io", "HR"⟩, ⟨"constructor", "Bob", "bob@x.io", "Sales"⟩] = none
      ∧ ([⟨"E1", "2024-01-01", "Present"⟩, ⟨"constructor", "2024-01-01", "Present"⟩] :
          List AttendanceRecord).map (·.employeeId) = ["E1", "constructor"] := by
  decide

/-- When no record is named like a member of `Object.prototype`, summaries are produced, no
employeeId has two of them, and their employeeIds are exactly those that occur in the records
(so an employee without a record has no summary). -/
theorem rangeSummary_ids_of_plain_keys (records : List AttendanceRecord)
    (employees : List Employee)
    (hplain : ∀ r ∈ records, r.employeeId ∉ objectPrototypeKeys) :
    ∃ out, recordsWithDetails records employees = some out
      ∧ (out.map (·.employeeId)).Nodup
      ∧ ∀ k, k ∈ out.map (·.employeeId) ↔ k ∈ records.map (·.employeeId) := by
  obtain ⟨out, hout⟩ := recordsWithDetails_isSome records employees hplain
  exact ⟨out, hout, recordsWithDetails_ids hout⟩

/-- C5 fails on the code: two records whose employeeId is `toString` occur in the list, and the
loop throws at the first of them, so there is no summary for that employeeId whose records
could be the two records in order. -/
theorem rangeSummary_records_prototype_key :
    recordsWithDetails
        [⟨"toString", "2024-01-01", "Present"⟩, ⟨"toString", "2024-01-02", "Absent"⟩] [] = none
      ∧ (([⟨"toString", "2024-01-01", "Present"⟩, ⟨"toString", "2024-01-02", "Absent"⟩] :
          List AttendanceRecord).filter fun r => r.employeeId = "toString")
          = [⟨"toString", "2024-01-01", "Present"⟩, ⟨"toString", "2024-01-02", "Absent"⟩] := by
  decide

/-- When no record is named like a member of `Object.prototype`, summaries are produced and
every employeeId that occurs in the records has a summary whose `records` are the input records
with that employeeId, in input order. -/
theorem rangeSummary_records_of_plain_keys (records : List AttendanceRecord)
    (employees : List Employee)
    (hplain : ∀ r ∈ records, r.employeeId ∉ objectPrototypeKeys) :
    ∃ out, recordsWithDetails records employees = some out
      ∧ (∀ r ∈ records, ∃ summary ∈ out, summary.employeeId = r.employeeId)
      ∧ ∀ summary ∈ out,
          summary.records = records.filter fun r => r.employeeId = summary.employeeId := by
  obtain ⟨out, hout⟩ := recordsWithDetails_isSome records employees hplain
  refine ⟨out, hout, ?_, ?_⟩
  · intro r hr
    have hk : r.employeeId ∈ out.map (·.employeeId) :=
      ((recordsWithDetails_ids hout).2 r.employeeId).mpr (List.mem_map_of_mem _ hr)
    obtain ⟨summary, hs, hid⟩ := List.mem_map.mp hk
    exact ⟨summary, hs, hid⟩
  · intro summary hs
    obtain ⟨k, rfl, _, _⟩ := recordsWithDetails_mem hout summary hs
    rfl

/-- C10: in every summary that `fetchAttendanceRecords` produces, `presentDays` is the number
of its records whose status is exactly `Present`, and `absentDays` is the number of its records
with any other status string. -/
theorem rangeSummary_counts_by_status (records : List AttendanceRecord) (employees : List Employee)
    (out : List Summary) (hout : recordsWithDetails records employees = some out)
    (summary : Summary) (hmem : summary ∈ out) :
    summary.presentDays = summary.records.countP (fun r => r.status = "Present")
      ∧ summary.absentDays = summary.records.countP (fun r => r.status ≠ "Present") := by
  obtain ⟨k, rfl, _, _⟩ := recordsWithDetails_mem hout summary hmem
  exact ⟨rfl, rfl⟩

/-- The statuses `On Leave` and `present` are neither `Present` nor `Absent`; both count as
absent days. -/
theorem rangeSummary_counts_by_status_witness :
    recordsWithDetails
        [⟨"E1", "2024-01-01", "Present"⟩, ⟨"E1", "2024-01-02", "On Leave"⟩,
         ⟨"E1", "2024-01-03", "present"⟩, ⟨"E1", "2024-01-04", "Absent"⟩] []
      = some [⟨"E1", [⟨"E1", "2024-01-01", "Present"⟩, ⟨"E1", "2024-01-02", "On Leave"⟩,
                ⟨"E1", "2024-01-03", "present"⟩, ⟨"E1", "2024-01-04", "Absent"⟩], 1, 3,
                .undefined⟩]
      ∧ (1 = ([⟨"E1", "2024-01-01", "Present"⟩, ⟨"E1", "2024-01-02", "On Leave"⟩,
                ⟨"E1", "2024-01-03", "present"⟩, ⟨"E1", "2024-01-04", "Absent"⟩] :
                List AttendanceRecord).countP (fun r => r.status = "Present")
          ∧ 3 = ([⟨"E1", "2024-01-01", "Present"⟩, ⟨"E1", "2024-01-02", "On Leave"⟩,
                ⟨"E1", "2024-01-03", "present"⟩, ⟨"E1", "2024-01-04", "Absent"⟩] :
                List AttendanceRecord).countP (fun r => r.status ≠ "Present")) :=
  ⟨by decide,
   rangeSummary_counts_by_status
     [⟨"E1", "2024-01-01", "Present"⟩, ⟨"E1", "2024-01-02", "On Leave"⟩,
      ⟨"E1", "2024-01-03", "present"⟩, ⟨"E1", "2024-01-04", "Absent"⟩] []
     [⟨"E1", [⟨"E1", "2024-01-01", "Present"⟩, ⟨"E1", "2024-01-02", "On Leave"⟩,
        ⟨"E1", "2024-01-03", "present"⟩, ⟨"E1", "2024-01-04", "Absent"⟩], 1, 3, .undefined⟩]
     (by decide)
     ⟨"E1", [⟨"E1", "2024-01-01", "Present"⟩, ⟨"E1", "2024-01-02", "On Leave"⟩,
        ⟨"E1", "2024-01-03", "present"⟩, ⟨"E1", "2024-01-04", "Absent"⟩], 1, 3, .undefined⟩
     (by decide)⟩

/-! ## The range summary: when the loop throws -/

/-- The loop throws as soon as a record is named like a member of `Object.prototype`. -/
theorem groupRecords_eq_none (rest : List AttendanceRecord) :
    ∀ {seen : List AttendanceRecord} {employeeMap : Props Group},
      GroupsOf seen employeeMap → (∃ r ∈ rest, r.employeeId ∈ objectPrototypeKeys) →
      groupRecords employeeMap rest = none := by
  induction rest with
  | nil =>
    intro seen employeeMap _ hex
    obtain ⟨r, hr, _⟩ := hex
    simp at hr
  | cons record rest ih =>
    intro seen employeeMap hinv hex
    simp only [groupRecords]
    cases hstep : groupStep employeeMap record with
    | none => rfl
    | some employeeMap' =>
      simp only
      apply ih (hinv.step hstep)
      obtain ⟨r, hr, hproto⟩ := hex
      rcases List.mem_cons.mp hr with heq | hmem
      · exfalso
        subst heq
        unfold groupStep at hstep
        cases hget : employeeMap.get? r.employeeId with
        | some g => exact (hinv.2.1 _ _ hget).2.2 hproto
        | none => simp [hget, hproto] at hstep
      · exact ⟨r, hmem, hproto⟩

/-- The grouping of `fetchAttendanceRecords` throws exactly when some record is named like a
member of `Object.prototype`, whatever the employee list. -/
theorem recordsWithDetails_eq_none_iff (records : List AttendanceRecord)
    (employees : List Employee) :
    recordsWithDetails records employees = none
      ↔ ∃ r ∈ records, r.employeeId ∈ objectPrototypeKeys := by
  constructor
  · intro hnone
    by_contra hno
    have hplain : ∀ r ∈ records, r.employeeId ∉ objectPrototypeKeys := by
      intro r hr hp
      exact hno ⟨r, hr, hp⟩
    obtain ⟨out, hout⟩ := recordsWithDetails_isSome records employees hplain
    rw [hnone] at hout
    cases hout
  · intro hex
    simp [recordsWithDetails, groupRecords_eq_none records GroupsOf.nil hex]

/-- C11 fails on the code: on a record whose employeeId is `hasOwnProperty` the grouping of
`fetchAttendanceRecords` throws a `TypeError` (here after a well-formed record of `E1`); the
handler ends in its `catch` block, with the error toast and no summaries.  The daily merge and
`applyStatusUpdate` return on the same strings. -/
theorem reconciler_throws_on_prototype_key :
    recordsWithDetails
        [⟨"E1", "2024-01-01", "Present"⟩, ⟨"hasOwnProperty", "2024-01-01", "Absent"⟩]
        [⟨"E1", "Ann", "ann@x.io", "HR"⟩] = none
      ∧ AttendancePage.fetchAttendanceRecords
          { employees := [], attendanceRecords := [], selectedDate := "2024-01-01",
            dateRange := (none, none), loading := true, saving := false }
          (.fulfilled [⟨"E1", "2024-01-01", "Present"⟩,
            ⟨"hasOwnProperty", "2024-01-01", "Absent"⟩])
          (.fulfilled [⟨"E1", "Ann", "ann@x.io", "HR"⟩])
        = { state := { employees := [], attendanceRecords := [], selectedDate := "2024-01-01",
                       dateRange := (none, none), loading := false, saving := false }
            requests := [.getAttendance none]
            toasts := [.error "Failed to load attendance records"] }
      ∧ (employeesWithAttendance [⟨"hasOwnProperty", "Ann", "ann@x.io", "HR"⟩]
          [⟨"hasOwnProperty", "2024-01-01", "Absent"⟩]).map (·.status) = [.str "Absent"] := by
  decide

/-! ## The range summary: the employee join -/

theorem buildEmployeeDetailsMap_append (employees : List Employee) (emp : Employee) :
    buildEmployeeDetailsMap (employees ++ [emp])
      = detailsAssign (buildEmployeeDetailsMap employees) emp := by
  simp [buildEmployeeDetailsMap, List.foldl_append]

/-- The own property of `employeeDetailsMap` for a key other than `__proto__` is the last
employee with that `employeeId`. -/
theorem buildEmployeeDetailsMap_own (employees : List Employee) (key : String)
    (hkey : key ≠ "__proto__") :
    (buildEmployeeDetailsMap employees).own.get? key
      = (employees.filter fun e => e.employeeId = key).getLast? := by
  induction employees using List.reverseRecOn with
  | nil => rfl
  | append_singleton es e ih =>
    rw [buildEmployeeDetailsMap_append]
    unfold detailsAssign
    by_cases h : e.employeeId = key
    · have h' : e.employeeId ≠ "__proto__" := by rw [h]; exact hkey
      simp only [h', if_false]
      rw [h, Props.get?_put_self]
      simp [List.filter_append, h]
    · by_cases hp : e.employeeId = "__proto__"
      · simp only [hp, if_true]
        rw [ih]
        simp [List.filter_append, h]
      · simp only [hp, if_false]
        rw [Props.get?_put_of_ne _ _ _ _ h, ih]
        simp [List.filter_append, h]

/-- The prototype of `employeeDetailsMap` is replaced by the last employee whose `employeeId` is
`__proto__`, if there is one. -/
theorem buildEmployeeDetailsMap_proto (employees : List Employee) :
    (buildEmployeeDetailsMap employees).proto
      = (employees.filter fun e => e.employeeId = "__proto__").getLast? := by
  induction employees using List.reverseRecOn with
  | nil => rfl
  | append_singleton es e ih =>
    rw [buildEmployeeDetailsMap_append]
    unfold detailsAssign
    by_cases hp : e.employeeId = "__proto__"
    · simp [hp, List.filter_append]
    · simp [hp, List.filter_append, ih]

/-- The read `employeeDetailsMap[key]` when the employee list has an entry for the key: the
last such entry. -/
theorem detailsRead_of_entry (employees : List Employee) (key : String) (emp : Employee)
    (hkey : key ≠ "__proto__")
    (hlast : (employees.filter fun e => e.employeeId = key).getLast? = some emp) :
    detailsRead (buildEmployeeDetailsMap employees) key = .employee emp := by
  simp [detailsRead, buildEmployeeDetailsMap_own employees key hkey, hlast]

/-- The read `employeeDetailsMap[key]` when the employee list has no entry for the key and none
named `__proto__`, for a key that `Object.prototype` does not define: `undefined`. -/
theorem detailsRead_of_no_entry (employees : List Employee) (key : String)
    (hkey : key ∉ objectPrototypeKeys)
    (hnone : ∀ e ∈ employees, e.employeeId ≠ key)
    (hproto : ∀ e ∈ employees, e.employeeId ≠ "__proto__") :
    detailsRead (buildEmployeeDetailsMap employees) key = .undefined := by
  have hp : key ≠ "__proto__" := by
    intro h
    apply hkey
    rw [h]
    decide
  have h1 : employees.filter (fun e => e.employeeId = key) = [] := by
    simpa [List.filter_eq_nil_iff] using hnone
  have h2 : employees.filter (fun e => e.employeeId = "__proto__") = [] := by
    simpa [List.filter_eq_nil_iff] using hproto
  simp [detailsRead, buildEmployeeDetailsMap_own employees key hp, h1,
    buildEmployeeDetailsMap_proto, h2, hkey]

/-- C12 fails on the code: the employee list has no entry whose employeeId is `fullName`, but
it has one whose employeeId is `__proto__`; the assignment `employeeDetailsMap["__proto__"] = emp`
makes that employee object the prototype of `employeeDetailsMap`, and the read
`employeeDetailsMap["fullName"]` yields its `fullName`, the string `Zed`, not `undefined`. -/
theorem rangeSummary_detail_through_proto :
    recordsWithDetails [⟨"fullName", "2024-01-01", "Present"⟩]
        [⟨"__proto__", "Zed", "zed@x.io", "HR"⟩]
      = some [⟨"fullName", [⟨"fullName", "2024-01-01", "Present"⟩], 1, 0, .str "Zed"⟩]
      ∧ (([⟨"__proto__", "Zed", "zed@x.io", "HR"⟩] : List Employee).filter
          fun e => e.employeeId = "fullName") = []
      ∧ Detail.str "Zed" ≠ Detail.undefined := by
  decide

/-- In every summary produced, the employee detail is the last entry of the employee list with
the summary's employeeId when there is one; when there is none, and no employee is named
`__proto__`, the detail is `undefined`.  Records and counters do not depend on the employee
list. -/
theorem rangeSummary_detail_of_plain_keys (records : List AttendanceRecord)
    (employees : List Employee) (out : List Summary)
    (hout : recordsWithDetails records employees = some out)
    (summary : Summary) (hmem : summary ∈ out) :
    (∀ emp, (employees.filter fun e => e.employeeId = summary.employeeId).getLast? = some emp →
        summary.employee = .employee emp)
      ∧ ((∀ e ∈ employees, e.employeeId ≠ summary.employeeId) →
          (∀ e ∈ employees, e.employeeId ≠ "__proto__") → summary.employee = .undefined)
      ∧ summary.records = (groupOf summary.employeeId records).records
      ∧ summary.presentDays = (groupOf summary.employeeId records).presentDays
      ∧ summary.absentDays = (groupOf summary.employeeId records).absentDays := by
  obtain ⟨k, rfl, _, hplain⟩ := recordsWithDetails_mem hout summary hmem
  have hp : k ≠ "__proto__" := by
    intro h
    apply hplain
    rw [h]
    decide
  refine ⟨?_, ?_, rfl, rfl, rfl⟩
  · intro emp hlast
    exact detailsRead_of_entry employees k emp hp hlast
  · intro hnone hproto
    exact detailsRead_of_no_entry employees k hplain hnone hproto

/-! ## The request handlers of the Attendance view: claims -/

/-- C13, as stated, fails: when `GET /employees` is fulfilled and `GET /attendance` is rejected,
`fetchEmployees` has already stored the employee list, so the roster goes from empty to one
entry; and `handleDateChange` stores the new date before its request, so a rejected request
leaves the selected date changed. -/
theorem rejected_fetch_changes_data :
    (AttendancePage.fetchEmployees
        { employees := [], attendanceRecords := [], selectedDate := "2024-01-01",
          dateRange := (none, none), loading := true, saving := false }
        (.fulfilled [⟨"E1", "Ann", "ann@x.io", "HR"⟩]) (.rejected none)).state.data
        = ([⟨"E1", "Ann", "ann@x.io", "HR", .undefined⟩], [], "2024-01-01")
      ∧ (AttendancePage.handleDateChange
        { employees := [], attendanceRecords := [], selectedDate := "2024-01-01",
          dateRange := (none, none), loading := false, saving := false }
        "2024-01-02" (.rejected none)).state.data = ([], [], "2024-01-02")
      ∧ AttendanceView.data
        { employees := [], attendanceRecords := [], selectedDate := "2024-01-01",
          dateRange := (none, none), loading := false, saving := false }
        = ([], [], "2024-01-01") := by
  decide

/-- C13 (amended): when a request of a fetch handler is rejected,
`fetchAttendanceRecords` leaves the data state (roster, summaries, selected date) as it was;
`fetchEmployees` leaves it as it was when `GET /employees` is rejected, and when
`GET /employees` is fulfilled and `GET /attendance` is rejected it replaces the roster by the
employee list as received (no status) and leaves the summaries and the selected date;
`handleDateChange` leaves the roster and the summaries and sets the selected date to the new
date. -/
theorem rejected_fetch_data (view : AttendanceView) (data : List Employee)
    (records : List AttendanceRecord) (date : String) (detail : Option String)
    (attendanceRes : Response (List AttendanceRecord)) (employeesRes : Response (List Employee)) :
    (AttendancePage.fetchAttendanceRecords view (.rejected detail) employeesRes).state.data
        = view.data
      ∧ (AttendancePage.fetchAttendanceRecords view (.fulfilled records)
          (.rejected detail)).state.data = view.data
      ∧ (AttendancePage.fetchEmployees view (.rejected detail) attendanceRes).state.data
          = view.data
      ∧ (AttendancePage.fetchEmployees view (.fulfilled data) (.rejected detail)).state.data
          = (data.map rawEntry, view.attendanceRecords, view.selectedDate)
      ∧ (AttendancePage.handleDateChange view date (.rejected detail)).state.data
          = (view.employees, view.attendanceRecords, date) := by
  refine ⟨rfl, ?_, rfl, rfl, rfl⟩
  simp only [AttendancePage.fetchAttendanceRecords]
  cases groupRecords [] records <;> rfl

/-- C14: after `handleAttendanceChange` the roster is `applyStatusUpdate` of the roster before
the call when `POST /attendance` is fulfilled, and the roster before the call when it is
rejected. -/
theorem handleAttendanceChange_roster (view : AttendanceView) (employeeId status : String)
    (detail : Option String) :
    (AttendancePage.handleAttendanceChange view employeeId status (.fulfilled ())).state.employees
        = applyStatusUpdate view.employees employeeId status
      ∧ (AttendancePage.handleAttendanceChange view employeeId status
          (.rejected detail)).state.employees = view.employees
      ∧ (AttendancePage.handleAttendanceChange view employeeId status (.fulfilled ())).requests
          = [.postAttendance employeeId view.selectedDate status] :=
  ⟨rfl, rfl, rfl⟩

/-- C16 fails on the code: when `GET /attendance?date_filter=` is rejected, `handleDateChange`
raises no toast (its `catch` block only calls `console.error`). -/
theorem handleDateChange_rejected_no_toast :
    (AttendancePage.handleDateChange
        { employees := [⟨"E1", "Ann", "ann@x.io", "HR", .str "Present"⟩], attendanceRecords := [],
          selectedDate := "2024-01-01", dateRange := (none, none), loading := false,
          saving := false }
        "2024-01-02" (.rejected none)).toasts = [] := by
  decide

/-- The other three handlers of the Attendance view raise an error toast on every rejected
request. -/
theorem rejected_toasts_of_siblings (view : AttendanceView) (data : List Employee)
    (records : List AttendanceRecord) (employeeId status : String) (detail : Option String)
    (attendanceRes : Response (List AttendanceRecord)) (employeesRes : Response (List Employee)) :
    (AttendancePage.fetchEmployees view (.rejected detail) attendanceRes).toasts
        = [.error "Failed to load employees"]
      ∧ (AttendancePage.fetchEmployees view (.fulfilled data) (.rejected detail)).toasts
          = [.error "Failed to load employees"]
      ∧ (AttendancePage.fetchAttendanceRecords view (.rejected detail) employeesRes).toasts
          = [.error "Failed to load attendance records"]
      ∧ (AttendancePage.fetchAttendanceRecords view (.fulfilled records)
          (.rejected detail)).toasts = [.error "Failed to load attendance records"]
      ∧ (AttendancePage.handleAttendanceChange view employeeId status (.rejected detail)).toasts
          = [.error "Failed to mark attendance"] := by
  refine ⟨rfl, rfl, rfl, ?_, rfl⟩
  simp only [AttendancePage.fetchAttendanceRecords]
  cases groupRecords [] records <;> rfl

/-! ## Re-annotation and repeated updates: claims -/

/-- C18: the merge of `handleDateChange` with records `R2`, applied to the roster that the merge
of `fetchEmployees` built from the employees `E` and records `R1`, is the roster that the merge
of `fetchEmployees` builds from `E` and `R2`. -/
theorem reannotation_eq_fresh (E : List Employee) (R1 R2 : List AttendanceRecord) :
    handleDateChangeMerge (employeesWithAttendance E R1) R2 = employeesWithAttendance E R2 := by
  simp [handleDateChangeMerge, employeesWithAttendance, List.map_map]

/-- C19: `applyStatusUpdate` with `(id, S)` twice is the same as once; `(id, S)` then `(id, T)`
is the same as `(id, T)` alone; and when no entry has employeeId `id` the roster is returned as
it is. -/
theorem applyStatusUpdate_last_write_wins (roster : List RosterEntry) (id S T : String) :
    applyStatusUpdate (applyStatusUpdate roster id S) id S = applyStatusUpdate roster id S
      ∧ applyStatusUpdate (applyStatusUpdate roster id S) id T = applyStatusUpdate roster id T
      ∧ ((∀ emp ∈ roster, emp.employeeId ≠ id) → applyStatusUpdate roster id S = roster) := by
  have hcomp : ∀ S T : String,
      applyStatusUpdate (applyStatusUpdate roster id S) id T = applyStatusUpdate roster id T := by
    intro S T
    simp only [applyStatusUpdate, List.map_map]
    apply List.map_congr_left
    intro emp _
    by_cases h : emp.employeeId = id <;> simp [h]
  refine ⟨hcomp S S, hcomp S T, ?_⟩
  intro hnone
  simp only [applyStatusUpdate]
  conv_rhs => rw [← List.map_id roster]
  apply List.map_congr_left
  intro emp hemp
  simp [hnone emp hemp]

/-- An update for `E9`, which is not in the roster, changes nothing. -/
theorem applyStatusUpdate_last_write_wins_witness :
    applyStatusUpdate [⟨"E1", "Ann", "ann@x.io", "HR", .str "Present"⟩,
        ⟨"E2", "Bob", "bob@x.io", "Sales", .str "Not Marked"⟩] "E9" "Absent"
      = [⟨"E1", "Ann", "ann@x.io", "HR", .str "Present"⟩,
         ⟨"E2", "Bob", "bob@x.io", "Sales", .str "Not Marked"⟩] :=
  (applyStatusUpdate_last_write_wins [⟨"E1", "Ann", "ann@x.io", "HR", .str "Present"⟩,
      ⟨"E2", "Bob", "bob@x.io", "Sales", .str "Not Marked"⟩] "E9" "Absent" "Absent").2.2
    (by decide)

/-! ## The Employees page: claims -/

/-- C20: `handleSubmit` sends `POST /employees` (with the form data as body) if and only if
`fullName`, `email` and `department` are all non-empty; when one of them is empty it sends no
request and leaves the whole component state as it was, so the form data and the employee list
are unchanged and the dialog stays as it is (open). -/
theorem handleSubmit_guard (view : EmployeesView) (response : Response Unit)
    (employeesRes : Response (List Employee)) :
    ((Request.postEmployee view.formData.fullName view.formData.email view.formData.department
          ∈ (EmployeesPage.handleSubmit view response employeesRes).requests)
        ↔ (view.formData.fullName ≠ "" ∧ view.formData.email ≠ ""
            ∧ view.formData.department ≠ ""))
      ∧ ((view.formData.fullName = "" ∨ view.formData.email = ""
            ∨ view.formData.department = "") →
          (EmployeesPage.handleSubmit view response employeesRes).requests = []
            ∧ (EmployeesPage.handleSubmit view response employeesRes).state = view) := by
  by_cases hguard : view.formData.fullName = "" ∨ view.formData.email = ""
      ∨ view.formData.department = ""
  · have hnot : ¬ (view.formData.fullName ≠ "" ∧ view.formData.email ≠ ""
        ∧ view.formData.department ≠ "") := by
      intro h
      rcases hguard with h1 | h1 | h1
      · exact h.1 h1
      · exact h.2.1 h1
      · exact h.2.2 h1
    simp [EmployeesPage.handleSubmit, hguard, hnot]
  · have hall : view.formData.fullName ≠ "" ∧ view.formData.email ≠ ""
        ∧ view.formData.department ≠ "" := by
      refine ⟨fun h => hguard (Or.inl h), fun h => hguard (Or.inr (Or.inl h)),
        fun h => hguard (Or.inr (Or.inr h))⟩
    refine ⟨⟨fun _ => hall, fun _ => ?_⟩, fun h => absurd h hguard⟩
    unfold EmployeesPage.handleSubmit
    rw [if_neg hguard]
    cases response <;> simp

/-- An empty department: nothing is sent and the dialog stays open with the form as typed. -/
theorem handleSubmit_guard_witness :
    (EmployeesPage.handleSubmit
        { employees := [⟨"E1", "Ann", "ann@x.io", "HR"⟩], loading := false, dialogOpen := true,
          formData := ⟨"Bob", "bob@x.io", ""⟩, formLoading := false }
        (.fulfilled ()) (.fulfilled [])).requests = []
      ∧ (EmployeesPage.handleSubmit
        { employees := [⟨"E1", "Ann", "ann@x.io", "HR"⟩], loading := false, dialogOpen := true,
          formData := ⟨"Bob", "bob@x.io", ""⟩, formLoading := false }
        (.fulfilled ()) (.fulfilled [])).state
        = { employees := [⟨"E1", "Ann", "ann@x.io", "HR"⟩], loading := false, dialogOpen := true,
            formData := ⟨"Bob", "bob@x.io", ""⟩, formLoading := false } :=
  (handleSubmit_guard
    { employees := [⟨"E1", "Ann", "ann@x.io", "HR"⟩], loading := false, dialogOpen := true,
      formData := ⟨"Bob", "bob@x.io", ""⟩, formLoading := false }
    (.fulfilled ()) (.fulfilled [])).2 (by decide)

/-! ## The range summary: the order of the summaries -/

theorem groupStep_keys {employeeMap employeeMap' : Props Group} {record : AttendanceRecord}
    (hstep : groupStep employeeMap record = some employeeMap') :
    employeeMap'.map Prod.fst = noteKey (employeeMap.map Prod.fst) record.employeeId := by
  unfold groupStep at hstep
  cases hget : employeeMap.get? record.employeeId with
  | some group =>
    rw [hget] at hstep
    simp only [Option.some.injEq] at hstep
    rw [← hstep, Props.keys_put]
    rfl
  | none =>
    rw [hget] at hstep
    by_cases hplain : record.employeeId ∈ objectPrototypeKeys
    · simp [hplain] at hstep
    · simp only [hplain, if_false, Option.some.injEq] at hstep
      rw [← hstep, Props.keys_put]
      rfl

theorem groupRecords_keys (rest : List AttendanceRecord) :
    ∀ {employeeMap out : Props Group}, groupRecords employeeMap rest = some out →
      out.map Prod.fst = (rest.map (·.employeeId)).foldl noteKey (employeeMap.map Prod.fst) := by
  induction rest with
  | nil =>
    intro employeeMap out hrun
    simp only [groupRecords, Option.some.injEq] at hrun
    subst hrun
    rfl
  | cons record rest ih =>
    intro employeeMap out hrun
    simp only [groupRecords] at hrun
    cases hstep : groupStep employeeMap record with
    | none => simp [hstep] at hrun
    | some employeeMap' =>
      rw [hstep] at hrun
      rw [ih hrun, groupStep_keys hstep]
      rfl

theorem foldl_noteKey (ids : List String) :
    ∀ acc : List String,
      ids.foldl noteKey acc = acc ++ (firstOccurrences ids).filter fun x => x ∉ acc := by
  induction ids with
  | nil => intro acc; simp [firstOccurrences]
  | cons k ks ih =>
    intro acc
    rw [List.foldl_cons, ih]
    by_cases hk : k ∈ acc
    · have hfilter : ((firstOccurrences ks).filter fun x => x ≠ k).filter (fun x => x ∉ acc)
          = (firstOccurrences ks).filter fun x => x ∉ acc := by
        rw [List.filter_filter]
        apply List.filter_congr
        intro x _
        by_cases hx : x ∈ acc
        · simp [hx]
        · have : x ≠ k := fun e => hx (e ▸ hk)
          simp [hx, this]
      simp only [noteKey, hk, if_true, firstOccurrences, List.filter_cons, not_true_eq_false,
        decide_False, Bool.false_eq_true, if_false, hfilter]
    · have hfilter : ((firstOccurrences ks).filter fun x => x ≠ k).filter (fun x => x ∉ acc)
          = (firstOccurrences ks).filter fun x => x ∉ acc ++ [k] := by
        rw [List.filter_filter]
        apply List.filter_congr
        intro x _
        by_cases hx : x ∈ acc <;> by_cases hxk : x = k <;> simp [hx, hxk]
      simp only [noteKey, hk, if_false, firstOccurrences, List.filter_cons, not_false_eq_true,
        decide_True, if_true, hfilter, List.append_assoc, List.singleton_append]

/-- The keys of `employeeMap` after the loop, in creation order: the employeeIds of the records
in the order of their first occurrence. -/
theorem groupRecords_keys_eq {records : List AttendanceRecord} {employeeMap : Props Group}
    (hrun : groupRecords [] records = some employeeMap) :
    employeeMap.map Prod.fst = firstOccurrences (records.map (·.employeeId)) := by
  rw [groupRecords_keys records hrun, foldl_noteKey]
  simp

theorem filterMap_index_mapVals {α β : Type} (f : α → β) (obj : Props α) :
    ((obj.map fun kv => (kv.1, f kv.2)).filterMap
        fun kv => (arrayIndex? kv.1).map fun n => (n, kv.2))
      = (obj.filterMap fun kv => (arrayIndex? kv.1).map fun n => (n, kv.2)).map
          fun p => (p.1, f p.2) := by
  induction obj with
  | nil => rfl
  | cons kv rest ih =>
    cases h : arrayIndex? kv.1 with
    | none => simp [List.filterMap_cons, h, ih]
    | some n => simp [List.filterMap_cons, h, ih]

theorem filter_named_mapVals {α β : Type} (f : α → β) (obj : Props α) :
    ((obj.map fun kv => (kv.1, f kv.2)).filter fun kv => (arrayIndex? kv.1).isNone).map Prod.snd
      = ((obj.filter fun kv => (arrayIndex? kv.1).isNone).map Prod.snd).map f := by
  induction obj with
  | nil => rfl
  | cons kv rest ih =>
    cases h : arrayIndex? kv.1 with
    | none => simp [List.filter_cons, h, ih]
    | some n => simp [List.filter_cons, h, ih]

theorem objectValues_mapVals {α β : Type} (f : α → β) (obj : Props α) :
    objectValues (obj.map fun kv => (kv.1, f kv.2)) = (objectValues obj).map f := by
  have hsort := List.map_insertionSort (fun a b : Nat × α => a.1 ≤ b.1)
    (fun a b : Nat × β => a.1 ≤ b.1) (fun p : Nat × α => (p.1, f p.2))
    (obj.filterMap fun kv => (arrayIndex? kv.1).map fun n => (n, kv.2))
    (fun _ _ _ _ => Iff.rfl)
  unfold objectValues
  simp only []
  rw [filterMap_index_mapVals, ← hsort, filter_named_mapVals]
  simp only [List.map_append, List.map_map]
  rfl

theorem filterMap_index_diagonal (keys : List String) :
    ((keys.map fun k => (k, k)).filterMap fun kv => (arrayIndex? kv.1).map fun n => (n, kv.2))
      = (keys.filter fun k => (arrayIndex? k).isSome).map
          fun k => ((arrayIndex? k).getD 0, k) := by
  induction keys with
  | nil => rfl
  | cons k rest ih =>
    cases h : arrayIndex? k with
    | none => simp [List.filterMap_cons, List.filter_cons, h, ih]
    | some n => simp [List.filterMap_cons, List.filter_cons, h, ih]

theorem filter_named_diagonal (keys : List String) :
    ((keys.map fun k => (k, k)).filter fun kv => (arrayIndex? kv.1).isNone).map Prod.snd
      = keys.filter fun k => (arrayIndex? k).isNone := by
  induction keys with
  | nil => rfl
  | cons k rest ih =>
    cases h : arrayIndex? k with
    | none => simp [List.filter_cons, h, ih]
    | some n => simp [List.filter_cons, h, ih]

theorem objectValues_diagonal (keys : List String) :
    objectValues (keys.map fun k => (k, k)) = ownKeyOrder keys := by
  have hsort := List.map_insertionSort
    (fun a b : String => (arrayIndex? a).getD 0 ≤ (arrayIndex? b).getD 0)
    (fun a b : Nat × String => a.1 ≤ b.1) (fun k : String => ((arrayIndex? k).getD 0, k))
    (keys.filter fun k => (arrayIndex? k).isSome)
    (fun _ _ _ _ => Iff.rfl)
  unfold objectValues ownKeyOrder
  simp only []
  rw [filterMap_index_diagonal, ← hsort, filter_named_diagonal, List.map_map]
  congr 1
  exact List.map_id _

/-- The employeeIds listed by `Object.values(employeeMap)` after the loop, in order. -/
theorem GroupsOf.objectValues_ids_eq {records : List AttendanceRecord}
    {employeeMap : Props Group} (hinv : GroupsOf records employeeMap) :
    (objectValues employeeMap).map (·.employeeId) = ownKeyOrder (employeeMap.map Prod.fst) := by
  rw [← objectValues_mapVals, ← objectValues_diagonal, List.map_map]
  congr 1
  apply List.map_congr_left
  intro kv hkv
  obtain ⟨k, g⟩ := kv
  have := (hinv.2.1 k g (Props.get?_of_mem _ _ _ hinv.1 hkv)).1
  simp [this, groupOf]

/-- The result of `fetchAttendanceRecords` in closed form: the summaries of the employeeIds of
the records, in the order in which `Object.values` visits them. -/
theorem recordsWithDetails_eq_map_summaryOf {records : List AttendanceRecord}
    {employees : List Employee} {out : List Summary}
    (hout : recordsWithDetails records employees = some out) :
    out = (ownKeyOrder (firstOccurrences (records.map (·.employeeId)))).map
      fun k => summaryOf k records employees := by
  have hrun : ∃ employeeMap, groupRecords [] records = some employeeMap := by
    cases h : groupRecords [] records with
    | none => simp [recordsWithDetails, h] at hout
    | some m => exact ⟨m, rfl⟩
  obtain ⟨employeeMap, hrun⟩ := hrun
  have hinv : GroupsOf records employeeMap := by
    have := GroupsOf.loop records GroupsOf.nil hrun
    simpa using this
  have hout' : out = (objectValues employeeMap).map
      fun g => summaryOf g.employeeId records employees := by
    simp only [recordsWithDetails, hrun, Option.some.injEq] at hout
    rw [← hout]
    apply List.map_congr_left
    intro g hg
    obtain ⟨k, hk, _, _⟩ := hinv.of_mem_objectValues g hg
    subst hk
    rfl
  rw [hout', ← groupRecords_keys_eq hrun, ← hinv.objectValues_ids_eq, List.map_map]
  rfl

theorem mem_of_mem_firstOccurrences (ids : List String) (x : String)
    (hx : x ∈ firstOccurrences ids) : x ∈ ids := by
  induction ids with
  | nil => simp [firstOccurrences] at hx
  | cons k ks ih =>
    simp only [firstOccurrences, List.mem_cons, List.mem_filter] at hx
    rcases hx with h | h
    · exact h ▸ List.mem_cons_self _ _
    · exact List.mem_cons_of_mem _ (ih h.1)

theorem ownKeyOrder_of_no_index (keys : List String)
    (hnone : ∀ k ∈ keys, arrayIndex? k = none) : ownKeyOrder keys = keys := by
  have h1 : keys.filter (fun k => (arrayIndex? k).isSome) = [] := by
    rw [List.filter_eq_nil_iff]
    intro k hk
    simp [hnone k hk]
  have h2 : keys.filter (fun k => (arrayIndex? k).isNone) = keys := by
    rw [List.filter_eq_self]
    intro k hk
    simp [hnone k hk]
  simp [ownKeyOrder, h1, h2]

theorem decimalValue_digits (cs : List Char) :
    ∀ (acc n : Nat), decimalValue cs acc = some n →
      cs.all (fun d => decide ('0' ≤ d ∧ d ≤ '9')) = true := by
  induction cs with
  | nil => intro _ _ _; rfl
  | cons c cs ih =>
    intro acc n h
    by_cases hc : '0' ≤ c ∧ c ≤ '9'
    · simp only [decimalValue, hc, and_self, if_true] at h
      simp only [List.all_cons, hc, and_self, decide_True, Bool.true_and]
      exact ih _ _ h
    · simp [decimalValue, hc] at h

/-- An array index is a canonical non-negative integer string. -/
theorem canonicalNat_of_arrayIndex (key : String) (n : Nat) (h : arrayIndex? key = some n) :
    canonicalNat key = true := by
  unfold arrayIndex? at h
  unfold canonicalNat
  cases hdata : key.data with
  | nil => simp [hdata] at h
  | cons c cs =>
    simp only [hdata] at h ⊢
    by_cases hzero : c = '0' ∧ cs ≠ []
    · simp [hzero] at h
    · simp only [hzero, if_false] at h
      cases hval : decimalValue (c :: cs) 0 with
      | none => simp [hval] at h
      | some m =>
        have hdigits := decimalValue_digits (c :: cs) 0 m hval
        rw [hdigits, Bool.and_true]
        by_cases hc : c = '0'
        · have : cs = [] := by
            by_contra hcs
            exact hzero ⟨hc, hcs⟩
          simp [this]
        · simp [hc]

/-! ## The range summary: order and dates, claims -/

/-- C17: the summaries are returned in the order in which `Object.values` visits the keys of
`employeeMap`: the employeeIds that are array indices (canonical integers below `2^32 - 1`) in
ascending numeric order, then the other employeeIds in the order of their first occurrence in
the record list.  In particular, when no employeeId is a canonical non-negative integer string,
the summaries are in the order in which their employeeId first occurs in the record list. -/
theorem rangeSummary_order (records : List AttendanceRecord) (employees : List Employee)
    (out : List Summary) (hout : recordsWithDetails records employees = some out) :
    out.map (·.employeeId) = ownKeyOrder (firstOccurrences (records.map (·.employeeId)))
      ∧ ((∀ r ∈ records, canonicalNat r.employeeId = false) →
          out.map (·.employeeId) = firstOccurrences (records.map (·.employeeId))) := by
  have hall : out.map (·.employeeId)
      = ownKeyOrder (firstOccurrences (records.map (·.employeeId))) := by
    rw [recordsWithDetails_eq_map_summaryOf hout, List.map_map]
    exact List.map_id _
  refine ⟨hall, fun hplain => ?_⟩
  rw [hall]
  apply ownKeyOrder_of_no_index
  intro k hk
  obtain ⟨r, hr, hrk⟩ := List.mem_map.mp (mem_of_mem_firstOccurrences _ _ hk)
  cases hidx : arrayIndex? k with
  | none => rfl
  | some n =>
    have h1 := canonicalNat_of_arrayIndex k n hidx
    have h2 := hplain r hr
    rw [hrk, h1] at h2
    cases h2

/-- Records of `E2`, `E1`, `E2`: the summary of `E2` comes first.  With the ids `b`, `10`, `2`,
`02` the array indices `2` and `10` come first, in numeric order. -/
theorem rangeSummary_order_witness :
    ([⟨"E2", [⟨"E2", "2024-01-01", "Present"⟩, ⟨"E2", "2024-01-03", "Absent"⟩], 1, 1, .undefined⟩,
       ⟨"E1", [⟨"E1", "2024-01-02", "Present"⟩], 1, 0, .undefined⟩] : List Summary).map
        (·.employeeId) = ["E2", "E1"]
      ∧ (recordsWithDetails [⟨"b", "2024-01-01", "Present"⟩, ⟨"10", "2024-01-01", "Present"⟩,
          ⟨"2", "2024-01-01", "Present"⟩, ⟨"02", "2024-01-01", "Present"⟩] []).map
          (fun out => out.map (·.employeeId)) = some ["2", "10", "b", "02"] :=
  ⟨(rangeSummary_order
      [⟨"E2", "2024-01-01", "Present"⟩, ⟨"E1", "2024-01-02", "Present"⟩,
       ⟨"E2", "2024-01-03", "Absent"⟩] []
      [⟨"E2", [⟨"E2", "2024-01-01", "Present"⟩, ⟨"E2", "2024-01-03", "Absent"⟩], 1, 1, .undefined⟩,
       ⟨"E1", [⟨"E1", "2024-01-02", "Present"⟩], 1, 0, .undefined⟩]
      (by decide)).2 (by decide),
   by decide⟩

theorem foldl_attendanceMapAssign_withoutDate (records : List AttendanceRecord) :
    ∀ attendanceMap : Props String,
      (records.map AttendanceRecord.withoutDate).foldl attendanceMapAssign attendanceMap
        = records.foldl attendanceMapAssign attendanceMap := by
  induction records with
  | nil => intro _; rfl
  | cons r rs ih =>
    intro attendanceMap
    simp only [List.map_cons, List.foldl_cons]
    rw [ih]
    rfl

/-- The attendance map does not read the dates of the records. -/
theorem buildAttendanceMap_withoutDate (records : List AttendanceRecord) :
    buildAttendanceMap (records.map AttendanceRecord.withoutDate) = buildAttendanceMap records :=
  foldl_attendanceMapAssign_withoutDate records []

theorem summaryOf_withoutDate (key : String) (records : List AttendanceRecord)
    (employees : List Employee) :
    summaryOf key (records.map AttendanceRecord.withoutDate) employees
      = (summaryOf key records employees).withoutDates := by
  have hfilter : (records.map AttendanceRecord.withoutDate).filter (fun r => r.employeeId = key)
      = (records.filter fun r => r.employeeId = key).map AttendanceRecord.withoutDate := by
    rw [List.filter_map]
    rfl
  simp only [summaryOf, groupOf, Summary.withoutDates, hfilter, List.countP_map]
  rfl

/-- Blanking the dates of the records blanks the dates in the result and changes nothing
else. -/
theorem recordsWithDetails_withoutDate (records : List AttendanceRecord)
    (employees : List Employee) :
    recordsWithDetails (records.map AttendanceRecord.withoutDate) employees
      = (recordsWithDetails records employees).map (List.map Summary.withoutDates) := by
  have hids : (records.map AttendanceRecord.withoutDate).map (·.employeeId)
      = records.map (·.employeeId) := by
    rw [List.map_map]
    rfl
  cases h : recordsWithDetails records employees with
  | none =>
    obtain ⟨r, hr, hproto⟩ := (recordsWithDetails_eq_none_iff records employees).mp h
    exact (recordsWithDetails_eq_none_iff _ employees).mpr
      ⟨r.withoutDate, List.mem_map_of_mem _ hr, hproto⟩
  | some out =>
    have hplain : ∀ r ∈ records.map AttendanceRecord.withoutDate,
        r.employeeId ∉ objectPrototypeKeys := by
      intro r hr hproto
      obtain ⟨r0, hr0, rfl⟩ := List.mem_map.mp hr
      have hnone := (recordsWithDetails_eq_none_iff records employees).mpr ⟨r0, hr0, hproto⟩
      rw [h] at hnone
      cases hnone
    obtain ⟨out', hout'⟩ := recordsWithDetails_isSome _ employees hplain
    rw [hout', Option.map_some', recordsWithDetails_eq_map_summaryOf hout',
      recordsWithDetails_eq_map_summaryOf h, hids, List.map_map]
    congr 1
    apply List.map_congr_left
    intro k _
    exact summaryOf_withoutDate k records employees

/-- The handlers do not read dates.  When two record lists differ only in the dates of their
records, the rosters built by the merge of `fetchEmployees` and of `handleDateChange` are the
same, and the results of `fetchAttendanceRecords` are the same up to the dates of the records
listed (same summaries in the same order, same counters, same employee detail, or a throw in
both).  The roster that `fetchEmployees` or `handleDateChange` stores does not depend on the
selected date, which only goes into the request. -/
theorem dates_not_read (E : List Employee) (roster : List RosterEntry)
    (R R' : List AttendanceRecord) (view : AttendanceView) (d d' : String)
    (response : Response (List Employee)) (attendanceRes : Response (List AttendanceRecord))
    (hsame : R.map AttendanceRecord.withoutDate = R'.map AttendanceRecord.withoutDate) :
    employeesWithAttendance E R = employeesWithAttendance E R'
      ∧ handleDateChangeMerge roster R = handleDateChangeMerge roster R'
      ∧ (recordsWithDetails R E).map (List.map Summary.withoutDates)
          = (recordsWithDetails R' E).map (List.map Summary.withoutDates)
      ∧ (AttendancePage.fetchEmployees { view with selectedDate := d } response
            attendanceRes).state.employees
          = (AttendancePage.fetchEmployees { view with selectedDate := d' } response
            attendanceRes).state.employees
      ∧ (AttendancePage.handleDateChange view d attendanceRes).state.employees
          = (AttendancePage.handleDateChange view d' attendanceRes).state.employees := by
  have hmap : buildAttendanceMap R = buildAttendanceMap R' := by
    rw [← buildAttendanceMap_withoutDate R, ← buildAttendanceMap_withoutDate R', hsame]
  refine ⟨?_, ?_, ?_, ?_, ?_⟩
  · simp only [employeesWithAttendance, hmap]
  · simp only [handleDateChangeMerge, hmap]
  · rw [← recordsWithDetails_withoutDate R E, ← recordsWithDetails_withoutDate R' E, hsame]
  · cases response with
    | rejected _ => rfl
    | fulfilled data => cases attendanceRes <;> rfl
  · cases attendanceRes <;> rfl

/-- When no record is named like a member of `Object.prototype`, summaries are produced and
every input record, whatever its date, is in the `records` of the summary of its
employeeId. -/
theorem rangeSummary_groups_all_of_plain_keys (records : List AttendanceRecord)
    (employees : List Employee)
    (hplain : ∀ r ∈ records, r.employeeId ∉ objectPrototypeKeys) :
    ∃ out, recordsWithDetails records employees = some out
      ∧ ∀ r ∈ records, ∃ summary ∈ out,
          summary.employeeId = r.employeeId ∧ r ∈ summary.records := by
  obtain ⟨out, hout⟩ := recordsWithDetails_isSome records employees hplain
  refine ⟨out, hout, ?_⟩
  intro r hr
  have hk : r.employeeId ∈ out.map (·.employeeId) :=
    ((recordsWithDetails_ids hout).2 r.employeeId).mpr (List.mem_map_of_mem _ hr)
  obtain ⟨summary, hs, hid⟩ := List.mem_map.mp hk
  refine ⟨summary, hs, hid, ?_⟩
  obtain ⟨k, rfl, _, _⟩ := recordsWithDetails_mem hout summary hs
  simp only [summaryOf, groupOf, List.mem_filter, decide_eq_true_eq]
  exact ⟨hr, hid.symm⟩

/-- C15 fails on the code: of the two records `{E1, 2024-01-01}` and `{valueOf, 2024-01-02}`
none is placed in a group.  The loop throws at the second record, whose employeeId names a
member of `Object.prototype`, the handler ends in its `catch` block and `attendanceRecords`
stays empty, so the record of `E1` is in no group either. -/
theorem rangeSummary_groups_nothing_on_prototype_key :
    recordsWithDetails
        [⟨"E1", "2024-01-01", "Present"⟩, ⟨"valueOf", "2024-01-02", "Absent"⟩]
        [⟨"E1", "Ann", "ann@x.io", "HR"⟩] = none
      ∧ (AttendancePage.fetchAttendanceRecords
          { employees := [], attendanceRecords := [], selectedDate := "2024-01-02",
            dateRange := (some "2024-01-01", some "2024-01-02"), loading := true,
            saving := false }
          (.fulfilled [⟨"E1", "2024-01-01", "Present"⟩, ⟨"valueOf", "2024-01-02", "Absent"⟩])
          (.fulfilled [⟨"E1", "Ann", "ann@x.io", "HR"⟩])).state.attendanceRecords = []
      ∧ (AttendancePage.fetchAttendanceRecords
          { employees := [], attendanceRecords := [], selectedDate := "2024-01-02",
            dateRange := (some "2024-01-01", some "2024-01-02"), loading := true,
            saving := false }
          (.fulfilled [⟨"E1", "2024-01-01", "Present"⟩, ⟨"valueOf", "2024-01-02", "Absent"⟩])
          (.fulfilled [⟨"E1", "Ann", "ann@x.io", "HR"⟩])).toasts
          = [.error "Failed to load attendance records"] := by
  decide

/-! ## The record cards: claims -/

theorem renderCells_eq_some (validDate : String → Bool) (records : List AttendanceRecord)
    (hvalid : ∀ att ∈ records, validDate att.date = true) :
    renderCells validDate records = some (records.map recordCell) := by
  induction records with
  | nil => rfl
  | cons att rest ih =>
    have h1 : validDate att.date = true := hvalid att (List.mem_cons_self _ _)
    have h2 := ih fun a ha => hvalid a (List.mem_cons_of_mem _ ha)
    simp [renderCells, h1, h2]

theorem renderCells_eq_none (validDate : String → Bool) (records : List AttendanceRecord)
    (att : AttendanceRecord) (hmem : att ∈ records) (hinvalid : validDate att.date = false) :
    renderCells validDate records = none := by
  induction records with
  | nil => simp at hmem
  | cons a rest ih =>
    by_cases ha : validDate a.date = true
    · rcases List.mem_cons.mp hmem with heq | hrest
      · rw [heq, ha] at hinvalid
        cases hinvalid
      · simp [renderCells, ha, ih hrest]
    · simp [renderCells, ha]

/-- A card that renders shows what the card of its summary is to show. -/
theorem recordCard_shows (validDate : String → Bool) (record : Summary) (card : RecordCard)
    (hcard : recordCard validDate record = some card) : CardShows record card := by
  unfold recordCard at hcard
  by_cases hheader : headerRenders record.employee = true
  · simp only [hheader, if_true] at hcard
    cases hcells : renderCells validDate (record.records.take 6) with
    | none => simp [hcells] at hcard
    | some cells =>
      have hvalid : ∀ att ∈ record.records.take 6, validDate att.date = true := by
        intro att hatt
        by_contra hno
        have hfalse : validDate att.date = false := by simpa using hno
        rw [renderCells_eq_none validDate _ att hatt hfalse] at hcells
        cases hcells
      rw [renderCells_eq_some validDate _ hvalid] at hcard
      simp only [Option.some.injEq] at hcard
      subst hcard
      have htake : record.records.take (min record.records.length 6)
          = record.records.take 6 := by
        by_cases h : record.records.length ≤ 6
        · rw [Nat.min_eq_left h, List.take_length, List.take_of_length_le h]
        · rw [Nat.min_eq_right (by omega)]
      refine ⟨by rw [htake], ?_, ?_, ?_, ?_⟩
      · simp only [List.length_map, List.length_take]
        omega
      · intro h
        simp [h]
      · intro h
        have : ¬ record.records.length > 6 := by omega
        simp [this]
      · by_cases h : record.records.length > 6
        · simp only [List.length_map, List.length_take, h, if_true, Option.getD_some]
          omega
        · simp only [List.length_map, List.length_take, h, if_false, Option.getD_none]
          omega
  · simp [hheader] at hcard

/-- C21, as stated, fails: the summary of `E1` has one record, whose date `not-a-date` is not a
date; `format(new Date(att.date), 'MMM dd, yyyy')` throws at line 371, the card is not rendered,
and no record is shown, neither of this summary nor of the summary of `E2` listed before it. -/
theorem recordCard_throws_on_invalid_date :
    isoCalendarDate "not-a-date" = false
      ∧ recordCard isoCalendarDate
          ⟨"E1", [⟨"E1", "not-a-date", "Present"⟩], 1, 0, .undefined⟩ = none
      ∧ recordCards isoCalendarDate
          [⟨"E2", [⟨"E2", "2024-01-01", "Absent"⟩], 0, 1, .undefined⟩,
           ⟨"E1", [⟨"E1", "not-a-date", "Present"⟩], 1, 0, .undefined⟩] = none
      ∧ min ([⟨"E1", "not-a-date", "Present"⟩] : List AttendanceRecord).length 6 = 1 := by
  decide

/-- C21 (amended): when, in every summary of the list, the employee detail is an employee
entry or unset and the first six records have dates that `new Date` accepts, the View Records
tab renders one card per summary, in order, and the card of a summary with `n` records shows
its first `min n 6` records in group order, the line `+k more records` exactly when `n > 6`
with `k = n - 6`, and the number of records shown plus `k` (0 when the line is absent) is
`n`. -/
theorem recordCards_show (validDate : String → Bool) (attendanceRecords : List Summary)
    (hemployee : ∀ record ∈ attendanceRecords,
      record.employee = .undefined ∨ ∃ emp, record.employee = .employee emp)
    (hdates : ∀ record ∈ attendanceRecords, ∀ att ∈ record.records.take 6,
      validDate att.date = true) :
    ∃ cards, recordCards validDate attendanceRecords = some cards
      ∧ List.Forall₂ CardShows attendanceRecords cards := by
  induction attendanceRecords with
  | nil => exact ⟨[], rfl, List.Forall₂.nil⟩
  | cons record rest ih =>
    obtain ⟨cards, hcards, hshow⟩ := ih
      (fun r hr => hemployee r (List.mem_cons_of_mem _ hr))
      (fun r hr => hdates r (List.mem_cons_of_mem _ hr))
    have hheader : headerRenders record.employee = true := by
      rcases hemployee record (List.mem_cons_self _ _) with h | ⟨emp, h⟩ <;> rw [h] <;> rfl
    have hcells := renderCells_eq_some validDate (record.records.take 6)
      (hdates record (List.mem_cons_self _ _))
    have hcard : ∃ card, recordCard validDate record = some card := by
      simp [recordCard, hheader, hcells]
    obtain ⟨card, hcard⟩ := hcard
    refine ⟨card :: cards, ?_, List.Forall₂.cons (recordCard_shows validDate record card hcard)
      hshow⟩
    simp [recordCards, hcard, hcards]

/-- A list of two summaries.  The first has eight records, so its card has six cells and the
line `+2 more records`; its eighth record, whose date is not a date, is not among the six that
are formatted.  The second has one record and no such line. -/
theorem recordCards_show_witness :
    ∃ cards,
      recordCards isoCalendarDate
          [⟨"E1", [⟨"E1", "2024-01-01", "Present"⟩, ⟨"E1", "2024-01-02", "Absent"⟩,
              ⟨"E1", "2024-01-03", "Present"⟩, ⟨"E1", "2024-01-04", "Present"⟩,
              ⟨"E1", "2024-01-05", "On Leave"⟩, ⟨"E1", "2024-01-06", "Present"⟩,
              ⟨"E1", "2024-01-07", "Absent"⟩, ⟨"E1", "never", "Present"⟩], 5, 3,
              .employee ⟨"E1", "Ann", "ann@x.io", "HR"⟩⟩,
           ⟨"E2", [⟨"E2", "2024-02-29", "Absent"⟩], 0, 1, .undefined⟩] = some cards
        ∧ List.Forall₂ CardShows
          [⟨"E1", [⟨"E1", "2024-01-01", "Present"⟩, ⟨"E1", "2024-01-02", "Absent"⟩,
              ⟨"E1", "2024-01-03", "Present"⟩, ⟨"E1", "2024-01-04", "Present"⟩,
              ⟨"E1", "2024-01-05", "On Leave"⟩, ⟨"E1", "2024-01-06", "Present"⟩,
              ⟨"E1", "2024-01-07", "Absent"⟩, ⟨"E1", "never", "Present"⟩], 5, 3,
              .employee ⟨"E1", "Ann", "ann@x.io", "HR"⟩⟩,
           ⟨"E2", [⟨"E2", "2024-02-29", "Absent"⟩], 0, 1, .undefined⟩] cards :=
  recordCards_show isoCalendarDate
    [⟨"E1", [⟨"E1", "2024-01-01", "Present"⟩, ⟨"E1", "2024-01-02", "Absent"⟩,
        ⟨"E1", "2024-01-03", "Present"⟩, ⟨"E1", "2024-01-04", "Present"⟩,
        ⟨"E1", "2024-01-05", "On Leave"⟩, ⟨"E1", "2024-01-06", "Present"⟩,
        ⟨"E1", "2024-01-07", "Absent"⟩, ⟨"E1", "never", "Present"⟩], 5, 3,
        .employee ⟨"E1", "Ann", "ann@x.io", "HR"⟩⟩,
     ⟨"E2", [⟨"E2", "2024-02-29", "Absent"⟩], 0, 1, .undefined⟩]
    (by
      intro record hrecord
      simp only [List.mem_cons, List.mem_singleton, List.not_mem_nil, or_false] at hrecord
      rcases hrecord with h | h
      · exact Or.inr ⟨_, by rw [h]⟩
      · exact Or.inl (by rw [h]))
    (by decide)

end Hrms
